import Mathlib

/-!
Verification of the Property Definition Resolution Engine of
`doc-generator/doc_formatter/doc_formatter.py` (class `DocFormatter`).

The Python code manipulates JSON-like dictionaries.  We embed those values as
the inductive type `Val` and Python dictionaries as insertion-ordered
association lists (`List (String × Val)`), which matches the semantics of
Python dicts (updates keep the position of an existing key, new keys are
appended at the end).  Stateful parts of the code (the shared
`common_properties` pool, emitted warnings, in-place mutation of `anyOf`
element dictionaries) are modelled by explicit state passing; Python
exceptions are modelled with `Except`.  Unbounded recursion
(`extend_property_info`, `merge_full_metadata`) is modelled with a fuel
parameter; theorems quantify over sufficient fuel or use concrete fuel.
-/

/-- Values of the JSON-like data manipulated by the doc formatter.  Python
dictionaries become insertion-ordered association lists. -/
inductive Val where
  | null : Val
  | bool (b : Bool) : Val
  | str (s : String) : Val
  | list (xs : List Val) : Val
  | dict (entries : List (String × Val)) : Val
  deriving Repr

/-- Lookup in an association list, mirroring Python `d[k]` / `d.get(k)`. -/
def dget : List (String × Val) → String → Option Val
  | [], _ => none
  | (k1, v) :: rest, k => if k1 = k then some v else dget rest k

/-- Update in an association list, mirroring Python `d[k] = v`: an existing
key keeps its position, a new key is appended at the end. -/
def dset : List (String × Val) → String → Val → List (String × Val)
  | [], k, v => [(k, v)]
  | (k1, v1) :: rest, k, v =>
      if k1 = k then (k, v) :: rest else (k1, v1) :: dset rest k v

/-- Deletion from an association list, mirroring Python `del d[k]` (the code
only deletes keys it has checked for, so a missing key is a no-op here). -/
def ddel : List (String × Val) → String → List (String × Val)
  | [], _ => []
  | (k1, v1) :: rest, k => if k1 = k then rest else (k1, v1) :: ddel rest k

/-- Keys of a dictionary, in insertion order (Python `d.keys()`). -/
def dkeys (d : List (String × Val)) : List String := d.map (fun kv => kv.1)

/-- Python `prop_info.get(k)`.  The code only ever calls `.get` on
dictionaries; for other values we return `none`. -/
def Val.get : Val → String → Option Val
  | .dict d, k => dget d k
  | _, _ => none

/-- Python `prop_info.get(k, default)`. -/
def Val.getD (v : Val) (k : String) (dflt : Val) : Val := (v.get k).getD dflt

/-- Python `k in d` (key membership, regardless of the value's truthiness). -/
def Val.containsKey (v : Val) (k : String) : Bool := (v.get k).isSome

/-- Python truthiness of a value. -/
def Val.truthy : Val → Bool
  | .null => false
  | .bool b => b
  | .str s => s ≠ ""
  | .list xs => !xs.isEmpty
  | .dict d => !d.isEmpty

/-- Python truthiness of an optional value (`None` is falsy). -/
def truthyO : Option Val → Bool
  | none => false
  | some v => v.truthy

/-- Extract a string value (the code applies string operations to these; other
shapes would raise in Python and are not exercised). -/
def getStr : Option Val → Option String
  | some (.str s) => some s
  | _ => none

/-- Lookup in a string-to-string table from the configuration. -/
def strLookup : List (String × String) → String → Option String
  | [], _ => none
  | (k1, v) :: rest, k => if k1 = k then some v else strLookup rest k

/-- Lookup in a per-schema table of override tables from the configuration. -/
def tblLookup : List (String × List (String × String)) → String → Option (List (String × String))
  | [], _ => none
  | (k1, v) :: rest, k => if k1 = k then some v else tblLookup rest k

/-- Equality test on values with a structural fuel bound, used to mirror
Python `val in list` membership tests inside fuelled recursions.  All uses
pass a fuel larger than the depth of the values involved. -/
def valBeq : Nat → Val → Val → Bool
  | 0, _, _ => false
  | _ + 1, .null, .null => true
  | _ + 1, .bool a, .bool b => a == b
  | _ + 1, .str a, .str b => a == b
  | fuel + 1, .list xs, .list ys =>
      xs.length == ys.length && (List.zip xs ys).all (fun p => valBeq fuel p.1 p.2)
  | fuel + 1, .dict xs, .dict ys =>
      xs.length == ys.length &&
        (List.zip xs ys).all (fun p => p.1.1 == p.2.1 && valBeq fuel p.1.2 p.2.2)
  | _ + 1, _, _ => false

/-- Python `s.startswith(pre)`. -/
def strStartsWith (s pre : String) : Bool := pre.data.isPrefixOf s.data

/-- Python `s.endswith(suf)`. -/
def strEndsWith (s suf : String) : Bool := suf.data.isSuffixOf s.data

/-- Containment search: does the needle occur as a contiguous run of the
second list. -/
def listHasInfix (needle : List Char) : List Char → Bool
  | [] => needle.isEmpty
  | c :: rest => needle.isPrefixOf (c :: rest) || listHasInfix needle rest

/-- Python `needle in hay` for strings. -/
def strHasSubstr (hay needle : String) : Bool := listHasInfix needle.data hay.data

/-- Python `s.partition(sep)[0]` for a single-character separator (used for
`ref_info.get('_ref_uri', '').partition('#')`). -/
def strBeforeChar (s : String) (sep : Char) : String :=
  String.mk (s.data.takeWhile (fun c => c ≠ sep))

/-- Python `s.replace('_', '.')` as used on version strings. -/
def replace_underscores (s : String) : String :=
  String.mk (s.data.map (fun c => if c == '_' then '.' else c))

/-- Numeric value of one dotted-version segment.  Modelled from the spec:
version segments are numeric. -/
def segToNat (seg : List Char) : Nat :=
  seg.foldl (fun n c => n * 10 + (c.toNat - 48)) 0

/-- Modelled from the spec: the dotted numeric segments of a version string
(`doc_gen_util.py` is not part of the sources; the spec describes version
comparison as comparing dotted numeric segments left to right). -/
def versionSegments (v : String) : List Nat :=
  (v.data.splitOn '.').map segToNat

/-- Comparison of leftover version segments against zero padding. -/
def compareZeros : List Nat → Int
  | [] => 0
  | b :: bs => if 0 < b then -1 else compareZeros bs

/-- Numeric comparison of version segment lists, the shorter list padded with
zeros, as described by the spec. -/
def compareSegs : List Nat → List Nat → Int
  | [], bs => compareZeros bs
  | a :: as, [] => if 0 < a then 1 else compareSegs as []
  | a :: as, b :: bs =>
      if a < b then -1 else if b < a then 1 else compareSegs as bs

/-- Modelled from the spec: `DocGenUtilities.compare_versions`.  Dotted
numeric segments are compared left-to-right numerically, shorter sequences
padded with zero; result is negative, zero or positive. -/
def compare_versions (v1 v2 : String) : Int :=
  compareSegs (versionSegments v1) (versionSegments v2)

/-- Character class of a version segment inside a reference URI. -/
def isVersionChar (c : Char) : Bool := c.isDigit || c == '_'

/-- Split a character list at the first occurrence of ".v", returning the
text before and after it. -/
def splitAtDotV : List Char → Option (List Char × List Char)
  | [] => none
  | '.' :: 'v' :: rest => some ([], rest)
  | c :: rest => (splitAtDotV rest).map (fun p => (c :: p.1, p.2))

/-- Modelled from the spec: `DocGenUtilities.get_ref_version`.  A versioned
reference embeds a version segment of the shape ".v1_0_2"; this returns that
version ("1_0_2") or `none` for an unversioned reference. -/
def get_ref_version (ref : String) : Option String :=
  match splitAtDotV ref.data with
  | none => none
  | some (_, rest) =>
      let ver := rest.takeWhile isVersionChar
      if ver.isEmpty then none else some (String.mk ver)

/-- Modelled from the spec: `DocGenUtilities.make_unversioned_ref`.  Strips
the version segment from a versioned reference, producing the version-agnostic
form used as a merge key; returns the empty string (falsy) when the input
carries no version segment. -/
def make_unversioned_ref (ref : String) : String :=
  match splitAtDotV ref.data with
  | none => ""
  | some (pre, rest) =>
      let ver := rest.takeWhile isVersionChar
      if ver.isEmpty then "" else String.mk (pre ++ rest.drop ver.length)

/-- Configuration options consumed by the resolution engine (`self.config`),
restricted to the keys the embedded code reads. -/
structure Config where
  schema_supplement_description_overrides : List (String × List (String × String))
  schema_supplement_fulldescription_overrides : List (String × List (String × String))
  property_description_overrides : List (String × String)
  property_fulldescription_overrides : List (String × String)
  units_translation : List (String × String)
  wants_common_objects : Bool
  excluded_schemas : List String
  excluded_schemas_by_match : List String
  profile_mode : Option String
  profile_resource_names : List String

/-- The external Schema Index (`self.traverser` plus
`self.documented_schemas`), consumed as an interface. -/
structure Env where
  find_ref_data : String → Option Val
  get_schema_name : String → Option String
  get_node_from_ref : String → String
  is_collection_of : String → Option String
  documented_schemas : List String

/-- Mutable state threaded through resolution: the shared common-object pool
(`self.common_properties`) and the warnings emitted so far. -/
structure St where
  common_properties : List (String × Val)
  warnings : List String
  deriving Repr

/-- Failures of the Python code (exceptions, plus fuel exhaustion of the
embedding). -/
inductive Err where
  | fuel : Err
  | unboundLocal : Err
  | indexError : Err
  | keyError : Err
  | typeError : Err
  deriving Repr, DecidableEq

/-- Version string carried by a metadata value (`compare_versions` is applied
to these; they are strings in all uses). -/
def vstr : Val → String
  | .str s => s
  | _ => ""

/-- Embedding of the introduced-version step of `merge_full_metadata`
(lines 1662-1668): keep the older of the two versions (ties keep the first
argument).  Versions are compared as strings via `compare_versions`. -/
def version_merge_step (m1 m2 : List (String × Val)) : List (String × Val) :=
  match dget m1 "version", dget m2 "version" with
  | some v1, some v2 =>
      if compare_versions (vstr v1) (vstr v2) > 0 then dset m1 "version" v2 else m1
  | none, some v2 => dset m1 "version" v2
  | _, none => m1

/-- Embedding of the deprecation step of `merge_full_metadata` (lines
1671-1689): an unversioned side suppresses the deprecation of the other
side; otherwise the older deprecation wins, and a deprecation present only
on the second side is copied over together with its explanation.  Both
dictionaries can be modified (the Python mutates its local deep copies). -/
def deprecation_merge_step (m1 m2 : List (String × Val)) :
    List (String × Val) × List (String × Val) :=
  if truthyO (dget m1 "unversioned") then
    (m1,
     dset (ddel m2 "version_deprecated") "version_deprecated_explanation"
       ((dget m1 "version_deprecated_explanation").getD (.str "")))
  else if truthyO (dget m2 "unversioned") then
    (dset (ddel m1 "version_deprecated") "version_deprecated_explanation"
       ((dget m2 "version_deprecated_explanation").getD (.str "")),
     m2)
  else
    match dget m1 "version_deprecated", dget m2 "version_deprecated" with
    | some d1v, some d2v =>
        (if compare_versions (vstr d1v) (vstr d2v) > 0 then
           dset m1 "version_deprecated" d2v
         else m1,
         m2)
    | none, some d2v =>
        (dset (dset m1 "version_deprecated" d2v) "version_deprecated_explanation"
           ((dget m2 "version_deprecated_explanation").getD (.str "")),
         m2)
    | _, none => (m1, m2)

/-- Embedding of the recursive child merge of `merge_full_metadata` (lines
1691-1694): every entry of the first dictionary holding a nested dictionary
is merged (by the given recursive merge) with a truthy entry of the same
name on the second side. -/
def child_merge_entry (recf : Val → Val → Val) (m2 : List (String × Val))
    (kv : String × Val) : String × Val :=
  match kv.2 with
  | .dict _ =>
      match dget m2 kv.1 with
      | some v2 => if v2.truthy then (kv.1, recf kv.2 v2) else kv
      | none => kv
  | _ => kv

/-- Embedding of the recursive child merge of `merge_full_metadata` (lines
1691-1694), entry by entry. -/
def children_merge (recf : Val → Val → Val) (m1 m2 : List (String × Val)) :
    List (String × Val) :=
  m1.map (child_merge_entry recf m2)

/-- Embedding of the pickup loop of `merge_full_metadata` (lines 1695-1699):
nested dictionaries present on the second side land on the first side when
its own entry is missing or falsy. -/
def pickup_entry (acc : List (String × Val)) (kv : String × Val) :
    List (String × Val) :=
  match kv.2 with
  | .dict _ => if truthyO (dget acc kv.1) then acc else dset acc kv.1 kv.2
  | _ => acc

/-- Embedding of the pickup loop of `merge_full_metadata` (lines 1695-1699),
folding `pickup_entry` over the second dictionary. -/
def pickup_missing (m1 m2 : List (String × Val)) : List (String × Val) :=
  m2.foldl pickup_entry m1

/-- Embedding of `DocFormatter.merge_full_metadata` (lines 1655-1700),
assembled from the four steps above.  Deep copies become value passing; the
fuel bounds the nesting depth of the metadata tree and exceeds it in all
uses (fuel exhaustion returns the first argument).  Non-dictionary arguments
are outside the exercised domain and are returned unchanged. -/
def merge_full_metadata : Nat → Val → Val → Val
  | 0, meta_a, _ => meta_a
  | fuel + 1, .dict m1, .dict m2 =>
      let m1a := version_merge_step m1 m2
      let p := deprecation_merge_step m1a m2
      .dict (pickup_missing (children_merge (fun a b => merge_full_metadata fuel a b) p.1 p.2) p.2)
  | _ + 1, meta_a, _ => meta_a

/-- Embedding of `DocFormatter.merge_metadata` (lines 1635-1652): merge the
metadata of a named child with the entry for it in the context metadata. -/
def merge_metadata (fuel : Nat) (node_name : String) (meta context_meta : Val) : Val :=
  merge_full_metadata fuel meta (context_meta.getD node_name (.dict []))

/-- Truthiness of an optional string (Python `None` and `''` are falsy). -/
def truthyS : Option String → Bool
  | none => false
  | some s => s ≠ ""

/-- Test for Python `x.get('type') == 'null'`. -/
def isNullType : Option Val → Bool
  | some (.str s) => s = "null"
  | _ => false

/-- Update in a string-to-string association list (Python dict semantics). -/
def sset : List (String × String) → String → String → List (String × String)
  | [], k, v => [(k, v)]
  | (k1, v1) :: rest, k, v =>
      if k1 = k then (k, v) :: rest else (k1, v1) :: sset rest k v

/-- Properties carried through from the parent when a ref is extended
(doc_formatter.py line 68, `self.parent_props`). -/
def parent_props : List String :=
  ["description", "longDescription", "fulldescription_override", "pattern",
   "readonly", "prop_required", "prop_required_on_create", "required_parameter"]

/-- Resolution of the Python default arguments of `apply_overrides` (lines
1605-1609): a falsy explicit name falls back to the named field of the
definition. -/
def effective_name (arg : Option String) (d : List (String × Val))
    (field : String) : Option String :=
  match arg with
  | some s => if s = "" then getStr (dget d field) else some s
  | none => getStr (dget d field)

/-- The chained assignment
`prop_info['description'] = prop_info['longDescription'] = o` of
`apply_overrides`. -/
def set_descriptions (d : List (String × Val)) (o : String) : List (String × Val) :=
  dset (dset d "description" (.str o)) "longDescription" (.str o)

/-- Lookup of an override for an optional property name (Python
`prop_name in table`, false for `None`). -/
def hitFor (tbl : List (String × String)) (pn : Option String) : Option String :=
  match pn with
  | some p => strLookup tbl p
  | none => none

/-- A description override applied when its lookup hit (lines 1616-1617 and
1622-1623). -/
def apply_desc_override (d : List (String × Val)) (hit : Option String) :
    List (String × Val) :=
  match hit with
  | some o => set_descriptions d o
  | none => d

/-- A full-description override applied when its lookup hit (lines 1618-1620
and 1624-1626). -/
def apply_fulldesc_override (d : List (String × Val)) (hit : Option String) :
    List (String × Val) :=
  match hit with
  | some o => dset (set_descriptions d o) "fulldescription_override" (.bool true)
  | none => d

/-- The units translation of `apply_overrides` (lines 1628-1630): a truthy
translation of the current units replaces them. -/
def apply_units_translation (cfg : Config) (d : List (String × Val)) :
    List (String × Val) :=
  match (match getStr (dget d "units") with
         | some u => strLookup cfg.units_translation u
         | none => none) with
  | some t => if t ≠ "" then dset d "units" (.str t) else d
  | none => d

/-- The body of `apply_overrides` after name and table resolution (lines
1613-1631): set the `fulldescription_override` marker, apply the schema-local
overrides and return early on a hit, otherwise apply the global overrides
followed by the units translation. -/
def overrides_core (cfg : Config)
    (local_overrides local_full_overrides : List (String × String))
    (prop_name : Option String) (d0 : List (String × Val)) : List (String × Val) :=
  let d := dset d0 "fulldescription_override" (.bool false)
  if (hitFor local_overrides prop_name).isSome ||
     (hitFor local_full_overrides prop_name).isSome then
    apply_fulldesc_override
      (apply_desc_override d (hitFor local_overrides prop_name))
      (hitFor local_full_overrides prop_name)
  else
    apply_units_translation cfg
      (apply_fulldesc_override
        (apply_desc_override d (hitFor cfg.property_description_overrides prop_name))
        (hitFor cfg.property_fulldescription_overrides prop_name))

/-- Embedding of `DocFormatter.apply_overrides` (lines 1600-1632).  The
Python function deep-copies its argument and edits the copy; here that is
value passing.  Schema-local overrides return early (skipping the units
translation); otherwise the global overrides and the units translation
apply. -/
def apply_overrides (cfg : Config) (prop_info : Val)
    (schema_nameA prop_nameA : Option String) : Val :=
  match prop_info with
  | .dict d0 =>
      let schema_name := effective_name schema_nameA d0 "_schema_name"
      let prop_name := effective_name prop_nameA d0 "_prop_name"
      let local_overrides : List (String × String) :=
        match schema_name with
        | some sn => (tblLookup cfg.schema_supplement_description_overrides sn).getD []
        | none => []
      let local_full_overrides : List (String × String) :=
        match schema_name with
        | some sn => (tblLookup cfg.schema_supplement_fulldescription_overrides sn).getD []
        | none => []
      .dict (overrides_core cfg local_overrides local_full_overrides prop_name d0)
  | v => v

/-- Embedding of `DocFormatter.skip_schema` (lines 935-947).  The name is
always a string in the exercised calls (a missing `_prop_name` is passed as
the empty string by our caller; Python would raise on the substring test). -/
def skip_schema (cfg : Config) (schema_name : String) : Bool :=
  if truthyS cfg.profile_mode && cfg.profile_resource_names.contains schema_name then
    false
  else if cfg.excluded_schemas.contains schema_name then true
  else cfg.excluded_schemas_by_match.any (fun pat => strHasSubstr schema_name pat)

/-- Embedding of `DocFormatter.link_to_own_schema` (lines 1539-1544). -/
def link_to_own_schema (env : Env) (schema_ref : String) (_schema_full_uri : String) : String :=
  match env.get_schema_name schema_ref with
  | some n => if n ≠ "" then n else schema_ref
  | none => schema_ref

/-- Embedding of `DocFormatter.link_to_common_property` (lines 1546-1551),
reading the common-property pool. -/
def link_to_common_property (pool : List (String × Val)) (ref_key : String) : String :=
  match dget pool ref_key with
  | some ri =>
      if ri.truthy then
        match getStr (ri.get "_prop_name") with
        | some s => if s ≠ "" then s ++ " object" else ref_key
        | none => ref_key
      else ref_key
  | none => ref_key

/-- Synthesized definition for the well-known "idRef" reference
(doc_formatter.py lines 1398-1407). -/
def idRef_fallback : Val :=
  .dict [("properties", .dict [("@odata.id", .dict [
    ("type", .str "string"),
    ("readonly", .bool true),
    ("description", .str "The unique identifier for a resource."),
    ("longDescription", .str "The value of this property shall be the unique identifier for the resource and it shall be of the form defined in the Redfish specification.")])])]

/-- Embedding of `DocFormatter.process_for_idRef` (lines 1389-1408): for a
reference ending in "#/definitions/idRef", return its data from the Schema
Index, or the synthesized fallback when the index has nothing (or something
falsy); `none` for any other reference. -/
def process_for_idRef (env : Env) (ref : String) : Option Val :=
  if strEndsWith ref "#/definitions/idRef" then
    match env.find_ref_data ref with
    | some v => if v.truthy then some v else some idRef_fallback
    | none => some idRef_fallback
  else none

/-- Embedding of the common-object registration step of
`extend_property_info` (lines 743-744): a key that already maps to a
non-`None` entry is left untouched, otherwise the object is stored. -/
def register_common_property (pool : List (String × Val)) (ref_key : String)
    (ref_info : Val) : List (String × Val) :=
  match dget pool ref_key with
  | none => dset pool ref_key ref_info
  | some .null => dset pool ref_key ref_info
  | some _ => pool

/-- Copy of the parent-level properties with a truthiness filter, mirroring
`for x in prop_info.keys(): if x in self.parent_props and prop_info[x]`
(lines 648-650 and 788-790). -/
def copy_parent_props_truthy (prop_info : Val) (target : List (String × Val)) :
    List (String × Val) :=
  match prop_info with
  | .dict d => d.foldl (fun acc kv =>
      if parent_props.contains kv.1 && kv.2.truthy then dset acc kv.1 kv.2 else acc) target
  | _ => target

/-- Copy of the parent-level properties without a truthiness filter,
mirroring lines 846-849 (`if x in self.parent_props: elt[x] = prop_info[x]`,
an in-place write into the anyOf element dictionary). -/
def copy_parent_props_all (prop_info : Val) (target : List (String × Val)) :
    List (String × Val) :=
  match prop_info with
  | .dict d => d.foldl (fun acc kv =>
      if parent_props.contains kv.1 then dset acc kv.1 kv.2 else acc) target
  | _ => target

/-- Scan of the anyOf alternatives for a reference to the well-known idRef
(lines 629-638): the first alternative whose "$ref" ends in
"#/definitions/idRef" is returned. -/
def anyof_idref_scan : List Val → Except Err (Option String)
  | [] => .ok none
  | elt :: rest =>
      if elt.containsKey "$ref" then
        match getStr (elt.get "$ref") with
        | some r =>
            if strEndsWith r "#/definitions/idRef" then .ok (some r)
            else anyof_idref_scan rest
        | none => .error .typeError
      else anyof_idref_scan rest

/-- Local variables of the version-collapse loop of `extend_property_info`
(lines 810-834).  `cleaned_version` is `none` while the Python local is still
unbound (reading it then raises `UnboundLocalError`). -/
structure CollapseSt where
  match_ref : String
  unversioned_ref : String
  latest_ref : Option String
  latest_version : String
  cleaned_version : Option String
  refs_by_version : List (String × String)
  deriving Repr

/-- Initial state of the version-collapse loop (lines 810-812). -/
def collapseInit : CollapseSt :=
  { match_ref := "", unversioned_ref := "", latest_ref := none,
    latest_version := "", cleaned_version := none, refs_by_version := [] }

/-- Outcome of one iteration of the version-collapse loop: either the loop
breaks with the current variable values, or it continues. -/
inductive LoopOut where
  | broke (st : CollapseSt) : LoopOut
  | cont (st : CollapseSt) : LoopOut

/-- One iteration of the version-collapse loop (lines 813-834). -/
def collapse_step (elt : Val) (st : CollapseSt) : Except Err LoopOut :=
  let this_ref := elt.get "$ref"
  -- lines 814-822: record unversioned form and version of a truthy $ref;
  -- a missing version breaks out of the loop
  let refres : Except Err (CollapseSt ⊕ (CollapseSt × Option String)) :=
    if truthyO this_ref then
      match getStr this_ref with
      | none => .error .typeError
      | some r =>
          let st1 := { st with unversioned_ref := make_unversioned_ref r }
          match get_ref_version r with
          | some tv =>
              if tv ≠ "" then
                let cleaned := replace_underscores tv
                let st2 := { st1 with cleaned_version := some cleaned }
                let st3 := { st2 with refs_by_version := sset st2.refs_by_version cleaned r }
                .ok (.inr (st3, some r))
              else .ok (.inl st1)
          | none => .ok (.inl st1)
    else .ok (.inr (st, none))
  match refres with
  | .error e => .error e
  | .ok (.inl stB) => .ok (.broke stB)
  | .ok (.inr (st, thisRefStr)) =>
      -- lines 824-825
      let st := if st.match_ref = "" then { st with match_ref := st.unversioned_ref } else st
      -- lines 826-832 (reading an unbound cleaned_version raises)
      let upd : Except Err CollapseSt :=
        if !truthyS st.latest_ref then
          match st.cleaned_version with
          | some c => .ok { st with latest_ref := thisRefStr, latest_version := c }
          | none => .error .unboundLocal
        else
          match st.cleaned_version with
          | some c =>
              if compare_versions st.latest_version c < 0 then
                .ok { st with latest_version := c }
              else .ok st
          | none => .error .unboundLocal
      match upd with
      | .error e => .error e
      | .ok st =>
          -- lines 833-834
          if st.match_ref ≠ st.unversioned_ref then .ok (.broke st) else .ok (.cont st)

/-- The version-collapse loop of `extend_property_info` (lines 813-834). -/
def anyof_collapse_loop : List Val → CollapseSt → Except Err CollapseSt
  | [], st => .ok st
  | elt :: rest, st =>
      match collapse_step elt st with
      | .error e => .error e
      | .ok (.broke stB) => .ok stB
      | .ok (.cont stC) => anyof_collapse_loop rest stC

/-- Reconstruction of the final values of the anyOf element dictionaries
after the resolution loop.  A record `(fin, contrib, alias)` holds the final
value of one element, the resolved entries it contributed, and whether the
contributed list is exactly the element object itself (Python object
identity); the nullable marking of lines 853-859 then also mutates that
element. -/
def mark_first_contributor (records : List (Val × List Val × Bool)) (marked : Val) :
    List Val :=
  match records with
  | [] => []
  | (fin, contrib, aliased) :: rest =>
      if contrib.isEmpty then fin :: mark_first_contributor rest marked
      else (if aliased then marked else fin) :: rest.map (fun r => r.1)

/-- Outcome of the found-reference block: either a value to append to the
result list, or a value to resolve again (line 797). -/
inductive RefOut where
  | done (v : Val) : RefOut
  | again (v : Val) : RefOut

/-- Embedding of the found-reference block of `extend_property_info` (lines
659-797): metadata merging, the collection idRef replacement, overrides, the
object/link synthesis with common-object registration, and the parent
property precedence.  `prop_ref` is the resolved reference string and
`ref_info` the data found for it. -/
def process_ref_info (env : Env) (cfg : Config) (fuel : Nat) (st : St)
    (schema_ref : String) (prop_info : Val) (prop_ref : String) (ref_info : Val)
    (context_meta : Val) : Except Err (St × RefOut) :=
  -- line 661
  let prop_meta := prop_info.getD "_doc_generator_meta" (.dict [])
  -- lines 663-667
  let from_schema_ref := (getStr (ref_info.get "_from_schema_ref")).getD ""
  let unversioned_schema_ref := make_unversioned_ref from_schema_ref
  let is_other_schema := (from_schema_ref ≠ "") &&
    !((schema_ref = from_schema_ref) || (schema_ref = unversioned_schema_ref))
  -- lines 669-673
  let meta :=
    if !is_other_schema then
      merge_full_metadata fuel prop_meta (ref_info.getD "_doc_generator_meta" (.dict []))
    else prop_meta
  -- lines 674-675
  let node_name := env.get_node_from_ref prop_ref
  let meta := merge_metadata fuel node_name meta context_meta
  -- lines 677-680
  let is_documented_schema := env.documented_schemas.contains from_schema_ref
  let is_collection_of := env.is_collection_of from_schema_ref
  let prop_nameO := getStr (ref_info.get "_prop_name")
  let is_ref_to_same_schema := (!is_other_schema) &&
    (match prop_nameO, env.get_schema_name schema_ref with
     | some a, some b => a == b
     | _, _ => false)
  -- lines 682-691: collections whose data is an anyOf get the idRef shortcut
  let refInfoStep : Except Err Val :=
    if truthyS is_collection_of && truthyO (ref_info.get "anyOf") then
      let anyof_list := match ref_info.get "anyOf" with
        | some (.list xs) => xs
        | _ => []
      match (anyof_list.find? (fun a => a.containsKey "$ref")).map
          (fun a => (a.get "$ref").getD .null) with
      | some rv =>
          if rv.truthy then
            match rv with
            | .str rs =>
                match process_for_idRef env rs with
                | some idr => if idr.truthy then .ok idr else .ok ref_info
                | none => .ok ref_info
            | _ => .error .typeError
          else .ok ref_info
      | none => .ok ref_info
    else .ok ref_info
  match refInfoStep with
  | .error e => .error e
  | .ok ref_info =>
    -- line 692
    let ref_info := apply_overrides cfg ref_info none none
    -- lines 695-785: object-typed targets become link synopses
    let objres : Except Err (St × Val) :=
      if (match ref_info.get "type" with | some (.str s) => s == "object" | _ => false) then
        -- lines 696-703
        let ref_description := ref_info.get "description"
        let ref_longDescription := ref_info.get "longDescription"
        let ref_fulldescription_override := ref_info.get "fulldescription_override"
        let ref_pattern := ref_info.get "pattern"
        let from_schema_uri := strBeforeChar ((getStr (ref_info.get "_ref_uri")).getD "") '#'
        -- line 706
        if is_other_schema || is_ref_to_same_schema then
          -- lines 707-758
          let inner : Except Err (St × Val × String × String) :=
            if truthyS is_collection_of then
              -- lines 707-715
              let coll := is_collection_of.getD ""
              let append_ref := "Contains a link to a resource."
              let ref_schema_name := (env.get_schema_name coll).getD ""
              let from_schema_uri :=
                if strHasSubstr from_schema_uri "redfish.dmtf.org/schemas/v1/odata" then
                  "http://" ++ coll
                else from_schema_uri
              let link_detail := "Link to Collection of " ++
                link_to_own_schema env coll from_schema_uri ++ ". See the " ++
                ref_schema_name ++ " schema for details."
              .ok (st, ref_info, append_ref, link_detail)
            else
              -- lines 717-721
              let pn := prop_nameO.getD ""
              let link_detail :=
                if is_documented_schema then
                  "Link to a " ++ pn ++ " resource. See the Links section and the " ++
                  link_to_own_schema env from_schema_ref from_schema_uri ++
                  " schema for details."
                else ""
              -- lines 723-725
              if is_ref_to_same_schema then
                .ok (st, ref_info, "", "Link to another " ++ pn ++ " resource.")
              else
                -- lines 727-758
                if is_documented_schema || !cfg.wants_common_objects then
                  let append_ref := "See the " ++
                    link_to_own_schema env from_schema_ref from_schema_uri ++
                    " schema for details on this property."
                  .ok (st, ref_info, append_ref, link_detail)
                else
                  -- lines 733-758: common object registration
                  match getStr (ref_info.get "_ref_uri") with
                  | none => .error .keyError
                  | some requested_ref_uri =>
                    let ref_key0 := make_unversioned_ref requested_ref_uri
                    let pair :=
                      if ref_key0 ≠ "" then
                        match env.find_ref_data ref_key0 with
                        | some parent_info =>
                            (apply_overrides cfg parent_info none none, ref_key0)
                        | none => (ref_info, ref_key0)
                      else (ref_info, requested_ref_uri)
                    let ref_info := pair.1
                    let ref_key := pair.2
                    -- lines 743-744
                    let pool := register_common_property st.common_properties ref_key ref_info
                    let st := { st with common_properties := pool }
                    -- lines 746-758
                    if !(skip_schema cfg ((getStr (ref_info.get "_prop_name")).getD "")) then
                      let specific_version := get_ref_version requested_ref_uri
                      let ref_info :=
                        if !(ref_info.containsKey "type") then
                          match ref_info with
                          | .dict d => Val.dict (dset d "type" (.str "object"))
                          | v => v
                        else ref_info
                      let append_ref :=
                        match specific_version with
                        | some v =>
                            if v ≠ "" then
                              "See the " ++ link_to_common_property pool ref_key ++
                              " (v" ++ v ++ ") for details on this property."
                            else
                              "See the " ++ link_to_common_property pool ref_key ++
                              " for details on this property."
                        | none =>
                            "See the " ++ link_to_common_property pool ref_key ++
                            " for details on this property."
                      .ok (st, ref_info, append_ref, link_detail)
                    else .ok (st, ref_info, "", link_detail)
          match inner with
          | .error e => .error e
          | .ok (st, ref_info, append_ref, link_detail) =>
            -- lines 762-785
            let new_ref_info : List (String × Val) :=
              [("description", ref_description.getD .null),
               ("longDescription", ref_longDescription.getD .null),
               ("fulldescription_override", ref_fulldescription_override.getD .null),
               ("pattern", ref_pattern.getD .null)]
            let props_to_add := ["_prop_name", "_from_schema_ref", "_schema_name",
                                 "type", "readonly"]
            let new_ref_info := props_to_add.foldl (fun acc x =>
              match ref_info.get x with
              | some v => if v.truthy then dset acc x v else acc
              | none => acc) new_ref_info
            let new_ref_info :=
              if !(truthyO ref_fulldescription_override) then
                dset new_ref_info "add_link_text" (.str append_ref)
              else new_ref_info
            let new_ref_info :=
              if link_detail ≠ "" then
                let link_props := [("type", Val.str "string"), ("readonly", Val.bool true),
                                   ("description", Val.str "")]
                let link_props :=
                  if !(truthyO ref_fulldescription_override) then
                    dset link_props "add_link_text" (.str link_detail)
                  else link_props
                dset new_ref_info "properties" (.dict [("@odata.id", .dict link_props)])
              else new_ref_info
            .ok (st, .dict new_ref_info)
        else .ok (st, ref_info)
      else .ok (st, ref_info)
    match objres with
    | .error e => .error e
    | .ok (st, ref_info) =>
      -- lines 788-790
      let ref_info :=
        match ref_info with
        | .dict d => Val.dict (copy_parent_props_truthy prop_info d)
        | v => v
      -- lines 791-794
      let new_prop_info :=
        match ref_info with
        | .dict d => Val.dict (dset d "_doc_generator_meta" meta)
        | v => v
      -- lines 796-797
      if new_prop_info.containsKey "$ref" || new_prop_info.containsKey "anyOf" then
        .ok (st, .again new_prop_info)
      else .ok (st, .done new_prop_info)

/-- Embedding of `DocFormatter.extend_property_info` (lines 614-864).  The
result is the updated state, the returned list of resolved definitions, the
final value of the argument object after any in-place mutations (Python
mutates the dictionaries inside the argument's anyOf list, lines 846-849 and
853-859), and a flag recording whether the returned list is exactly the
argument object itself (Python object identity, needed to mirror the
in-place nullable marking).  Fuel bounds the recursion depth; the Python
original recurses without bound. -/
def extend_property_info (env : Env) (cfg : Config) :
    Nat → St → String → Val → Val → Except Err (St × List Val × Val × Bool)
  | 0, _, _, _, _ => .error .fuel
  | fuel + 1, st, schema_ref, prop_info0, context_meta0 =>
    -- lines 620-624
    let prop_refV := prop_info0.get "$ref"
    let prop_anyofV := prop_info0.get "anyOf"
    let context_meta := if context_meta0.truthy then context_meta0 else .dict []
    -- lines 629-638: an anyOf holding an idRef reference becomes that reference
    let scanRes : Except Err (Option String) :=
      if truthyO prop_anyofV then
        match prop_anyofV with
        | some (.list alts) => anyof_idref_scan alts
        | _ => .error .typeError
      else .ok none
    match scanRes with
    | .error e => .error e
    | .ok scanned =>
      let prop_refV := match scanned with
        | some r => some (Val.str r)
        | none => prop_refV
      let prop_anyofV := match scanned with
        | some _ => none
        | none => prop_anyofV
      -- lines 640-651
      let stage : Except Err (Option String × Val × Bool) :=
        if truthyO prop_refV then
          match getStr prop_refV with
          | none => .error .typeError
          | some r =>
              if strStartsWith r "#" then .ok (some (schema_ref ++ r), prop_info0, false)
              else
                match process_for_idRef env r with
                | some idref0 =>
                    -- lines 647-651 (the in-place writes target the Schema
                    -- Index object, not the argument)
                    let idref1 := match idref0 with
                      | .dict d => Val.dict (copy_parent_props_truthy prop_info0 d)
                      | v => v
                    .ok (none, idref1, true)
                | none => .ok (some r, prop_info0, false)
        else .ok (none, prop_info0, false)
      match stage with
      | .error e => .error e
      | .ok (prop_refO, prop_infoCur, isIdref) =>
        -- line 653
        match prop_refO with
        | some r =>
            match env.find_ref_data r with
            | none =>
                -- lines 656-657 and 799: warn, return the unresolved input
                .ok ({ st with warnings := st.warnings ++ ["Unable to find data for " ++ r] },
                     [prop_infoCur], prop_info0, true)
            | some ref_info =>
                -- lines 659-797
                match process_ref_info env cfg fuel st schema_ref prop_infoCur r ref_info context_meta with
                | .error e => .error e
                | .ok (st2, .done v) => .ok (st2, [v], prop_info0, false)
                | .ok (st2, .again v) =>
                    match extend_property_info env cfg fuel st2 schema_ref v context_meta with
                    | .error e => .error e
                    | .ok (st3, infos, _, _) => .ok (st3, infos, prop_info0, false)
        | none =>
          -- line 801
          if truthyO prop_anyofV then
            match prop_anyofV with
            | some (.list alts) =>
                -- lines 802-804
                let skip_null := (alts.filter (fun x => x.containsKey "$ref")).length
                let sans_null := alts.filter (fun x => !(isNullType (x.get "type")))
                let is_nullable := skip_null ≠ 0 &&
                  (alts.filter (fun x => isNullType (x.get "type"))).length ≠ 0
                -- lines 806-841: collapse references to versions of one target
                let collapseRes : Except Err (Option (List Val)) :=
                  if sans_null.length > 1 then
                    match anyof_collapse_loop alts collapseInit with
                    | .error e => .error e
                    | .ok cst =>
                        if cst.match_ref = cst.unversioned_ref then
                          match strLookup cst.refs_by_version cst.latest_version with
                          | some pr => .ok (some [Val.dict [("$ref", .str pr)]])
                          | none => .error .keyError
                        else .ok none
                  else .ok none
                match collapseRes with
                | .error e => .error e
                | .ok collapsed =>
                  let loopAlts := collapsed.getD alts
                  -- lines 843-851
                  let loopRes : Except Err (St × List (Val × List Val × Bool)) :=
                    loopAlts.foldl (fun acc elt =>
                      match acc with
                      | .error e => .error e
                      | .ok (st, records) =>
                          if skip_null ≠ 0 && isNullType (elt.get "type") then
                            .ok (st, records ++ [(elt, [], false)])
                          else
                            let elt2 :=
                              if elt.containsKey "$ref" then
                                match elt with
                                | .dict d => Val.dict (copy_parent_props_all prop_infoCur d)
                                | v => v
                              else elt
                            match extend_property_info env cfg fuel st schema_ref elt2 context_meta with
                            | .error e => .error e
                            | .ok (st2, infos, fin, aliased) =>
                                .ok (st2, records ++ [(fin, infos, aliased)]))
                      (.ok (st, []))
                  match loopRes with
                  | .error e => .error e
                  | .ok (stL, records) =>
                    let prop_infos := records.foldl (fun acc rc => acc ++ rc.2.1) []
                    -- lines 853-859: fold the null alternative into the first entry
                    if is_nullable then
                      match prop_infos with
                      | [] => .error .indexError
                      | first :: restInfos =>
                          match first with
                          | .dict fd =>
                              let fd := dset fd "nullable" (.bool true)
                              let fd :=
                                match dget fd "type" with
                                | some tv =>
                                    if tv.truthy then dset fd "type" (.list [tv, .str "null"])
                                    else dset fd "type" (.str "null")
                                | none => dset fd "type" (.str "null")
                              let marked := Val.dict fd
                              let finalProp :=
                                match collapsed with
                                | some _ => prop_info0
                                | none =>
                                    match prop_info0 with
                                    | .dict d =>
                                        Val.dict (dset d "anyOf"
                                          (.list (mark_first_contributor records marked)))
                                    | v => v
                              .ok (stL, marked :: restInfos, finalProp, false)
                          | _ => .error .typeError
                    else
                      let finalProp :=
                        match collapsed with
                        | some _ => prop_info0
                        | none =>
                            match prop_info0 with
                            | .dict d =>
                                Val.dict (dset d "anyOf"
                                  (.list (records.map (fun rc => rc.1))))
                            | v => v
                      .ok (stL, prop_infos, finalProp, false)
            | _ => .error .typeError
          else
            -- lines 861-862
            .ok (st, [prop_infoCur], prop_info0, !isIdref)

/-- The two fields of a parsed property that the nullable invariant concerns:
the cleaned type-tag list and the nullable flag. -/
structure ParsedTypes where
  prop_type : List Val
  nullable : Bool
  deriving Repr

/-- Embedding of the type handling of
`DocFormatter._parse_single_property_info` (lines 1095 and 1137-1152): the
`type` value is coerced to a list, the "null" entries are removed and
remembered in the nullable flag.  The other fields of the parsed result do
not bear on the invariant and are not modelled. -/
def prop_type_fields (prop_info : Val) : ParsedTypes :=
  let pt := prop_info.getD "type" (.list [])
  let types := match pt with
    | .list xs => xs
    | v => [v]
  { prop_type := types.filter (fun t => !(isNullType (some t))),
    nullable := types.any (fun t => isNullType (some t)) }

/-- The uniquifying combination of `parse_property_info` (lines 1029-1042)
applied to the type lists of the parsed alternatives: values are appended in
order, skipping falsy values and values already present. -/
def combine_unique (fuel : Nat) (lists : List (List Val)) : List Val :=
  lists.foldl (fun acc l => l.foldl (fun acc2 v =>
    if v.truthy && !(acc2.any (fun w => valBeq fuel w v)) then acc2 ++ [v] else acc2) acc) []

/-- Embedding of `DocFormatter.parse_property_info` (lines 950-1077)
projected onto the `prop_type` and `nullable` fields of its result: a
dictionary is parsed by `_parse_single_property_info`; a one-element list is
parsed recursively; a longer list is parsed element-wise, the null detection
of lines 1016-1025 sets the flag, and the combination of lines 1029-1042
builds the type list.  The fuel exceeds the nesting depth in all uses. -/
def parse_property_info_types : Nat → Val → ParsedTypes
  | 0, _ => { prop_type := [], nullable := false }
  | _ + 1, .dict d => prop_type_fields (.dict d)
  | fuel + 1, .list [x] => parse_property_info_types fuel x
  | fuel + 1, .list xs =>
      let dets := xs.map (parse_property_info_types fuel)
      { prop_type := combine_unique fuel (dets.map (fun det => det.prop_type)),
        nullable := dets.any (fun det =>
          det.prop_type.length == 1 && det.prop_type.any (fun t => isNullType (some t))) }
  | _ + 1, v => prop_type_fields v

/-- Lower-case image of a character (Python `str.lower` on the ASCII names
the code sorts). -/
def lowerChar (c : Char) : Char :=
  if 65 ≤ c.toNat ∧ c.toNat ≤ 90 then Char.ofNat (c.toNat + 32) else c

/-- Lexicographic comparison of character lists by code point. -/
def charListLe : List Char → List Char → Bool
  | [], _ => true
  | _ :: _, [] => false
  | a :: as, b :: bs =>
      if a.toNat < b.toNat then true
      else if b.toNat < a.toNat then false
      else charListLe as bs

/-- Python `a.lower() <= b.lower()`, the comparison behind
`sort(key=str.lower)`. -/
def lowerLe (a b : String) : Bool :=
  charListLe (a.data.map lowerChar) (b.data.map lowerChar)

/-- Stable insertion into a case-insensitively sorted list. -/
def insertLower (x : String) : List String → List String
  | [] => [x]
  | y :: ys => if lowerLe x y then x :: y :: ys else y :: insertLower x ys

/-- Stable case-insensitive ascending sort, mirroring Python
`names.sort(key=str.lower)`. -/
def sortByLower (xs : List String) : List String := xs.foldr insertLower []

/-- Embedding of `DocFormatter.filter_props_by_profile` (lines 878-904).  In
terse mode the requested names are narrowed to the keys of the profile
fragment's requirement section (plus "Actions" when action requirements
exist); the final sort is always applied.  Python materialises the
intersection through a `set`, whose iteration order is unspecified; the
final case-insensitive sort makes the result deterministic except between
names equal up to case, which do not occur in the data. -/
def filter_props_by_profile (cfg : Config) (prop_names : List String)
    (profile : Option Val) (is_action : Bool) : List String :=
  match profile with
  | none => []
  | some profile =>
    let names :=
      if cfg.profile_mode == some "terse" then
        -- lines 883-887
        let profile_props :=
          if is_action then
            match profile with
            | .dict d => dkeys d
            | _ => []
          else
            match profile.get "PropertyRequirements" with
            | some (.dict d) => dkeys d
            | _ => []
        let profile_props :=
          if truthyO (profile.get "ActionRequirements") then profile_props ++ ["Actions"]
          else profile_props
        if is_action then
          -- lines 890-900: action names carry a namespaced prefix
          profile_props.foldl (fun filtered prop =>
            if prop_names.contains prop then filtered ++ [prop]
            else
              match prop_names.filter (fun x => strEndsWith x ("." ++ prop)) with
              | [] => filtered
              | m :: _ => filtered ++ [m]) []
        else
          -- line 902
          (prop_names.dedup).filter (fun x => profile_props.contains x)
      else prop_names
    sortByLower names

/-- Case-insensitive ascending sortedness of a name list. -/
def LowerSorted : List String → Prop := List.Chain' (fun a b => lowerLe a b = true)

/-- A Schema Index with no data, for inputs whose resolution is not the
point (or must fail). -/
def env0 : Env :=
  { find_ref_data := fun _ => none
    get_schema_name := fun _ => none
    get_node_from_ref := fun _ => ""
    is_collection_of := fun _ => none
    documented_schemas := [] }

/-- An empty configuration. -/
def cfg0 : Config :=
  { schema_supplement_description_overrides := []
    schema_supplement_fulldescription_overrides := []
    property_description_overrides := []
    property_fulldescription_overrides := []
    units_translation := []
    wants_common_objects := false
    excluded_schemas := []
    excluded_schemas_by_match := []
    profile_mode := none
    profile_resource_names := [] }

/-- The state at the start of a generation run: empty pool, no warnings. -/
def st0 : St := { common_properties := [], warnings := [] }

/-- A configuration carrying one configured description override, for the
property name "Foo". -/
def cfgC1 : Config := { cfg0 with property_description_overrides := [("Foo", "New text")] }

/-- A property definition with neither a reference nor alternatives, whose
name has a configured override. -/
def pC1 : Val := .dict [("_prop_name", .str "Foo"), ("description", .str "Old text")]

/-- A configuration whose units-translation table maps a unit to a name that
the table translates again. -/
def cfgC10 : Config := { cfg0 with units_translation := [("a", "b"), ("b", "c")] }

/-- A property definition carrying the unit "a". -/
def pC10 : Val := .dict [("units", .str "a")]

/-- Version metadata introduced in 1.2. -/
def metaA : Val := .dict [("version", .str "1.2")]

/-- Version metadata introduced in 1.0 and deprecated in 1.5. -/
def metaB : Val := .dict [("version", .str "1.0"), ("version_deprecated", .str "1.5")]

/-- A property definition holding only an unresolvable reference. -/
def pC5 : Val := .dict [("$ref", .str "http://e/X.json#/definitions/X")]

/-- A property definition holding a tagged union with no alternatives. -/
def pC7 : Val := .dict [("anyOf", .list [])]

/-- A property definition holding a parent-level description and a tagged
union of a reference and a null marker. -/
def pC9 : Val := .dict [("description", .str "D"),
  ("anyOf", .list [.dict [("$ref", .str "http://e/Z.json#/definitions/Z")],
                   .dict [("type", .str "null")]])]

/-- A reference to version 1.0.0 of the target Y. -/
def refY1 : String := "http://e/Y.v1_0_0.json#/definitions/Y"

/-- A reference to version 2.0.0 of the target Y. -/
def refY2 : String := "http://e/Y.v2_0_0.json#/definitions/Y"

/-- A Schema Index that resolves the version 2.0.0 reference to Y. -/
def envR : Env :=
  { env0 with find_ref_data := fun r =>
      if r == refY2 then some (.dict [("type", .str "string"), ("description", .str "Y!")])
      else none }

/-- A tagged union of two versioned references to Y and a null marker. -/
def c3_union : Val := .dict [("anyOf", .list
  [.dict [("$ref", .str refY1)], .dict [("$ref", .str refY2)],
   .dict [("type", .str "null")]])]

/-- The highest-versioned reference of the union alone. -/
def c3_ref : Val := .dict [("$ref", .str refY2)]

/-- A definition whose type list carries "null" next to "string". -/
def pC4 : Val := .dict [("type", .list [.str "string", .str "null"])]

/-- A terse-mode configuration. -/
def cfgTerse : Config := { cfg0 with profile_mode := some "terse" }

/-- A profile fragment requiring the property "Status" and one action. -/
def profC6 : Val := .dict
  [("PropertyRequirements", .dict [("Status", .dict [])]),
   ("ActionRequirements", .dict [("Reset", .dict [])])]

/-- A bare reference alternative, the shape of the anyOf elements in the
version-collapse scenario (lines 806-841). -/
def refdict (r : String) : Val := .dict [("$ref", .str r)]

theorem dget_dset_same (d : List (String × Val)) (k : String) (v : Val) :
    dget (dset d k v) k = some v := by
  induction d with
  | nil => simp [dget, dset]
  | cons kv rest ih =>
      obtain ⟨k1, v1⟩ := kv
      by_cases h : k1 = k <;> simp [dget, dset, h, ih]

theorem dget_dset_ne (d : List (String × Val)) (k k1 : String) (v : Val)
    (h : k1 ≠ k) : dget (dset d k1 v) k = dget d k := by
  induction d with
  | nil => simp [dget, dset, h]
  | cons kv rest ih =>
      obtain ⟨k2, v2⟩ := kv
      by_cases h2 : k2 = k1 <;> simp_all [dget, dset, h]

theorem dget_ddel_ne (d : List (String × Val)) (k k1 : String)
    (h : k1 ≠ k) : dget (ddel d k1) k = dget d k := by
  induction d with
  | nil => simp [ddel]
  | cons kv rest ih =>
      obtain ⟨k2, v2⟩ := kv
      by_cases h2 : k2 = k1 <;> by_cases h3 : k2 = k <;>
        simp_all [dget, ddel]

theorem dset_dset_same (d : List (String × Val)) (k : String) (v w : Val) :
    dset (dset d k v) k w = dset d k w := by
  induction d with
  | nil => simp [dset]
  | cons kv rest ih =>
      obtain ⟨k1, v1⟩ := kv
      by_cases h : k1 = k <;> simp [dset, h, ih]

theorem dset_eq_of_dget (d : List (String × Val)) (k : String) (v : Val)
    (h : dget d k = some v) : dset d k v = d := by
  induction d with
  | nil => simp [dget] at h
  | cons kv rest ih =>
      obtain ⟨k1, v1⟩ := kv
      by_cases hk : k1 = k
      · subst hk
        simp [dget] at h
        simp [dset, h]
      · simp [dget, hk] at h
        simp [dset, hk, ih h]

/-- C1: for a definition with neither a reference nor alternatives,
`extend_property_info` returns exactly that definition as a one-element
sequence, unchanged and without applying any overrides (the claim's
"with configured overrides applied" does not hold; see the
counterexample). -/
theorem C1_plain_definition_returned_unchanged
    (env : Env) (cfg : Config) (fuel : Nat) (st : St) (schema_ref : String)
    (d : List (String × Val)) (cm : Val)
    (href : dget d "$ref" = none) (hanyof : dget d "anyOf" = none) :
    extend_property_info env cfg (fuel + 1) st schema_ref (.dict d) cm =
      .ok (st, [.dict d], .dict d, true) := by
  simp [extend_property_info, Val.get, href, hanyof, truthyO]

/-- C1 witness: the theorem applied to a concrete definition. -/
theorem C1_plain_definition_returned_unchanged_witness :
    extend_property_info env0 cfgC1 1 st0 "S" pC1 (.dict []) =
      .ok (st0, [pC1], pC1, true) :=
  C1_plain_definition_returned_unchanged env0 cfgC1 0 st0 "S"
    [("_prop_name", .str "Foo"), ("description", .str "Old text")] (.dict []) rfl rfl

/-- C1 counterexample: on a plain definition whose property name has a
configured description override, `extend_property_info` returns the
definition with its original description, which differs from the
override-applied definition — so the claim that the returned element is the
definition "with configured overrides applied" is false. -/
theorem C1_counterexample :
    extend_property_info env0 cfgC1 1 st0 "S" pC1 (.dict []) =
      .ok (st0, [pC1], pC1, true)
    ∧ apply_overrides cfgC1 pC1 none none ≠ pC1
    ∧ (apply_overrides cfgC1 pC1 none none).get "description" = some (.str "New text")
    ∧ pC1.get "description" = some (.str "Old text") := by
  refine ⟨rfl, ?_, rfl, rfl⟩
  intro h
  have h2 : (apply_overrides cfgC1 pC1 none none).get "description" =
      pC1.get "description" := by rw [h]
  rw [show (apply_overrides cfgC1 pC1 none none).get "description" =
    some (.str "New text") from rfl] at h2
  rw [show pC1.get "description" = some (.str "Old text") from rfl] at h2
  simp at h2

/-- C5: for an unresolvable reference, `extend_property_info` emits a
non-fatal warning and returns the one-element sequence holding the
unresolved definition itself (the claim's "returns an empty sequence" does
not hold; see the counterexample). -/
theorem C5_unresolvable_ref_warns_and_returns_input
    (env : Env) (cfg : Config) (fuel : Nat) (st : St) (schema_ref : String)
    (d : List (String × Val)) (r : String) (cm : Val)
    (href : dget d "$ref" = some (.str r)) (hanyof : dget d "anyOf" = none)
    (hr : r ≠ "") (hhash : strStartsWith r "#" = false)
    (hidref : strEndsWith r "#/definitions/idRef" = false)
    (hfind : env.find_ref_data r = none) :
    extend_property_info env cfg (fuel + 1) st schema_ref (.dict d) cm =
      .ok ({ st with warnings := st.warnings ++ ["Unable to find data for " ++ r] },
           [.dict d], .dict d, true) := by
  simp [extend_property_info, Val.get, href, hanyof, truthyO, Val.truthy, hr,
        getStr, hhash, process_for_idRef, hidref, hfind]

/-- C5 witness: the theorem applied to a concrete unresolvable reference. -/
theorem C5_unresolvable_ref_warns_and_returns_input_witness :
    extend_property_info env0 cfg0 1 st0 "S" pC5 (.dict []) =
      .ok ({ common_properties := [],
             warnings := ["Unable to find data for http://e/X.json#/definitions/X"] },
           [pC5], pC5, true) :=
  C5_unresolvable_ref_warns_and_returns_input env0 cfg0 0 st0 "S"
    [("$ref", .str "http://e/X.json#/definitions/X")]
    "http://e/X.json#/definitions/X" (.dict []) rfl rfl (by decide) (by decide)
    (by decide) rfl

/-- C5 counterexample: for a concrete unresolvable reference the returned
sequence holds one element (the unresolved definition), not zero — the
offending property is not omitted. -/
theorem C5_counterexample :
    (match extend_property_info env0 cfg0 1 st0 "S" pC5 (.dict []) with
     | .ok (_, infos, _, _) => infos.length
     | _ => 0) = 1
    ∧ (match extend_property_info env0 cfg0 1 st0 "S" pC5 (.dict []) with
       | .ok (stF, _, _, _) => stF.warnings
       | _ => []) = ["Unable to find data for http://e/X.json#/definitions/X"] :=
  ⟨rfl, rfl⟩

/-- C7: a tagged union with an empty alternative set is falsy in Python, so
`extend_property_info` treats the definition as plain and returns it
unchanged as a one-element sequence, with no warning and no error (the
claim's "empty result set" does not hold; see the counterexample). -/
theorem C7_empty_anyof_returns_input
    (env : Env) (cfg : Config) (fuel : Nat) (st : St) (schema_ref : String)
    (d : List (String × Val)) (cm : Val)
    (href : dget d "$ref" = none) (hanyof : dget d "anyOf" = some (.list [])) :
    extend_property_info env cfg (fuel + 1) st schema_ref (.dict d) cm =
      .ok (st, [.dict d], .dict d, true) := by
  simp [extend_property_info, Val.get, href, hanyof, truthyO, Val.truthy]

/-- C7 witness: the theorem applied to a concrete empty union. -/
theorem C7_empty_anyof_returns_input_witness :
    extend_property_info env0 cfg0 1 st0 "S" pC7 (.dict []) =
      .ok (st0, [pC7], pC7, true) :=
  C7_empty_anyof_returns_input env0 cfg0 0 st0 "S" [("anyOf", .list [])] (.dict []) rfl rfl

/-- C7 counterexample: for a concrete malformed union the resolved sequence
has one element, not zero, and parsing it yields a (single) parsed entry
with an empty type list rather than an empty result set. -/
theorem C7_counterexample :
    (match extend_property_info env0 cfg0 1 st0 "S" pC7 (.dict []) with
     | .ok (_, infos, _, _) => infos.length
     | _ => 0) = 1
    ∧ parse_property_info_types 2 (.list [pC7]) =
        { prop_type := [], nullable := false } :=
  ⟨rfl, rfl⟩

theorem compareSegs_nil_right (bs : List Nat) : compareSegs bs [] = -(compareZeros bs) := by
  induction bs with
  | nil => simp [compareSegs, compareZeros]
  | cons b rest ih =>
      by_cases h : 0 < b <;> simp [compareSegs, compareZeros, h, ih]

theorem compareSegs_self (l : List Nat) : compareSegs l l = 0 := by
  induction l with
  | nil => simp [compareSegs, compareZeros]
  | cons a rest ih => simp [compareSegs, ih]

theorem compareSegs_antisymm (a : List Nat) : ∀ b, compareSegs a b = -(compareSegs b a) := by
  induction a with
  | nil =>
      intro b
      rw [show compareSegs [] b = compareZeros b from rfl, compareSegs_nil_right]
      simp
  | cons x xs ih =>
      intro b
      cases b with
      | nil =>
          rw [compareSegs_nil_right, show compareSegs [] (x :: xs) = compareZeros (x :: xs) from rfl]
      | cons y ys =>
          simp only [compareSegs]
          rcases lt_trichotomy x y with h | h | h
          · simp [h, Nat.lt_asymm h]
          · simp [h, ih ys]
          · simp [h, Nat.lt_asymm h]

theorem compare_versions_self (v : String) : compare_versions v v = 0 :=
  compareSegs_self _

theorem compare_versions_antisymm (a b : String) :
    compare_versions a b = -(compare_versions b a) :=
  compareSegs_antisymm _ _

theorem version_merge_step_version (m1 m2 : List (String × Val)) (va vb : String)
    (h1 : dget m1 "version" = some (.str va))
    (h2 : dget m2 "version" = some (.str vb)) :
    dget (version_merge_step m1 m2) "version" =
      some (.str (if compare_versions va vb > 0 then vb else va)) := by
  simp only [version_merge_step, h1, h2, vstr]
  by_cases h : compare_versions va vb > 0 <;> simp [h, dget_dset_same, h1]


theorem dget_cons (p : String × Val) (l : List (String × Val)) (k : String) :
    dget (p :: l) k = if p.1 = k then some p.2 else dget l k := by
  obtain ⟨k1, v1⟩ := p
  rfl

theorem deprecation_merge_step_version (m1 m2 : List (String × Val)) :
    dget (deprecation_merge_step m1 m2).1 "version" = dget m1 "version" := by
  unfold deprecation_merge_step
  by_cases hA : truthyO (dget m1 "unversioned") = true
  · simp [hA]
  · simp only [hA, Bool.false_eq_true, if_false]
    by_cases hB : truthyO (dget m2 "unversioned") = true
    · simp only [hB, if_true]
      rw [dget_dset_ne _ _ _ _ (by decide), dget_ddel_ne _ _ _ (by decide)]
    · simp only [hB, Bool.false_eq_true, if_false]
      cases h1 : dget m1 "version_deprecated" with
      | none =>
          cases h2 : dget m2 "version_deprecated" with
          | none => rfl
          | some d2v =>
              simp only []
              rw [dget_dset_ne _ _ _ _ (by decide), dget_dset_ne _ _ _ _ (by decide)]
      | some d1v =>
          cases h2 : dget m2 "version_deprecated" with
          | none => rfl
          | some d2v =>
              simp only []
              split
              · rw [dget_dset_ne _ _ _ _ (by decide)]
              · rfl

theorem child_merge_entry_fst (f : Val → Val → Val) (m2 : List (String × Val))
    (kv : String × Val) : (child_merge_entry f m2 kv).1 = kv.1 := by
  obtain ⟨k, v⟩ := kv
  cases v <;> simp only [child_merge_entry] <;> try rfl
  cases dget m2 k with
  | none => rfl
  | some v2 =>
      simp only []
      split <;> rfl

theorem child_merge_entry_str (f : Val → Val → Val) (m2 : List (String × Val))
    (k s : String) : child_merge_entry f m2 (k, .str s) = (k, .str s) := rfl

theorem children_merge_str (f : Val → Val → Val) (m1 m2 : List (String × Val))
    (k : String) (s : String) (h : dget m1 k = some (.str s)) :
    dget (children_merge f m1 m2) k = some (.str s) := by
  induction m1 with
  | nil => simp [dget] at h
  | cons kv rest ih =>
      obtain ⟨k1, v1⟩ := kv
      simp only [children_merge, List.map_cons]
      rw [dget_cons, child_merge_entry_fst]
      by_cases hk : k1 = k
      · subst hk
        have hv : v1 = .str s := by simpa [dget] using h
        subst hv
        rw [child_merge_entry_str]
        simp
      · have h2 : dget rest k = some (.str s) := by simpa [dget, hk] using h
        simp only [hk, if_false]
        exact ih h2

theorem pickup_entry_preserves (acc : List (String × Val)) (kv : String × Val)
    (k s : String) (h : dget acc k = some (.str s))
    (hkv : kv.1 = k → ∀ dd : List (String × Val), kv.2 ≠ .dict dd) :
    dget (pickup_entry acc kv) k = some (.str s) := by
  obtain ⟨k1, v1⟩ := kv
  cases v1 with
  | dict dd =>
      by_cases hk : k1 = k
      · exact absurd rfl (hkv hk dd)
      · simp only [pickup_entry]
        split
        · exact h
        · rw [dget_dset_ne _ _ _ _ hk]; exact h
  | null => exact h
  | bool b => exact h
  | str s2 => exact h
  | list xs => exact h

theorem pickup_missing_preserves (m2 : List (String × Val)) :
    ∀ (m1 : List (String × Val)) (k s : String),
    dget m1 k = some (.str s) →
    (∀ v : Val, (k, v) ∈ m2 → ∀ dd : List (String × Val), v ≠ .dict dd) →
    dget (pickup_missing m1 m2) k = some (.str s) := by
  induction m2 with
  | nil => intro m1 k s h1 _; exact h1
  | cons kv rest ih =>
      intro m1 k s h1 h2
      have hstep : dget (pickup_entry m1 kv) k = some (.str s) := by
        refine pickup_entry_preserves m1 kv k s h1 ?_
        intro hk dd hv
        exact h2 kv.2 (by rw [← hk]; simpa using List.mem_cons_self kv rest) dd hv
      have h2r : ∀ v : Val, (k, v) ∈ rest → ∀ dd : List (String × Val), v ≠ .dict dd :=
        fun v hv dd => h2 v (List.mem_cons_of_mem _ hv) dd
      simpa [pickup_missing, List.foldl_cons] using ih (pickup_entry m1 kv) k s hstep h2r

theorem mem_dget_of_nodup (m : List (String × Val)) (k : String) (v : Val)
    (hn : (dkeys m).Nodup) (hm : (k, v) ∈ m) : dget m k = some v := by
  induction m with
  | nil => simp at hm
  | cons kv rest ih =>
      obtain ⟨k1, v1⟩ := kv
      rw [dget_cons]
      have hn2 : k1 ∉ dkeys rest ∧ (dkeys rest).Nodup := by
        rw [show dkeys ((k1, v1) :: rest) = k1 :: dkeys rest from rfl] at hn
        exact List.nodup_cons.mp hn
      rcases List.mem_cons.mp hm with h | h
      · have hk : k = k1 := congrArg Prod.fst h
        have hv : v = v1 := congrArg Prod.snd h
        simp [hk, hv]
      · have hkmem : k ∈ dkeys rest := List.mem_map.mpr ⟨(k, v), h, rfl⟩
        have hk : ¬(k1 = k) := fun he => hn2.1 (he ▸ hkmem)
        simp only [hk, if_false]
        exact ih hn2.2 h

theorem mem_ddel_sub (l : List (String × Val)) (k : String) (p : String × Val)
    (h : p ∈ ddel l k) : p ∈ l := by
  induction l with
  | nil => simpa [ddel] using h
  | cons kv rest ih =>
      obtain ⟨k1, v1⟩ := kv
      by_cases hk : k1 = k
      · simp only [ddel, hk, if_true] at h
        exact List.mem_cons_of_mem _ h
      · simp only [ddel, hk, if_false] at h
        rcases List.mem_cons.mp h with h | h
        · exact h ▸ List.mem_cons_self _ _
        · exact List.mem_cons_of_mem _ (ih h)

theorem mem_dset (l : List (String × Val)) (k : String) (v : Val)
    (p : String × Val) (h : p ∈ dset l k v) : p ∈ l ∨ p = (k, v) := by
  induction l with
  | nil => exact Or.inr (by simpa [dset] using h)
  | cons kv rest ih =>
      obtain ⟨k1, v1⟩ := kv
      by_cases hk : k1 = k
      · simp only [dset, hk, if_true] at h
        rcases List.mem_cons.mp h with h | h
        · exact Or.inr h
        · exact Or.inl (List.mem_cons_of_mem _ h)
      · simp only [dset, hk, if_false] at h
        rcases List.mem_cons.mp h with h | h
        · exact Or.inl (h ▸ List.mem_cons_self _ _)
        · rcases ih h with h | h
          · exact Or.inl (List.mem_cons_of_mem _ h)
          · exact Or.inr h

theorem deprecation_merge_step_snd_version_free (m1 m2 : List (String × Val))
    (hnd : ∀ v : Val, ("version", v) ∈ m2 → ∀ dd : List (String × Val), v ≠ .dict dd) :
    ∀ v : Val, ("version", v) ∈ (deprecation_merge_step m1 m2).2 →
      ∀ dd : List (String × Val), v ≠ .dict dd := by
  unfold deprecation_merge_step
  by_cases hA : truthyO (dget m1 "unversioned") = true
  · simp only [hA, if_true]
    intro v hv dd
    rcases mem_dset _ _ _ _ hv with h | h
    · exact hnd v (mem_ddel_sub _ _ _ h) dd
    · have hk : ("version" : String) = "version_deprecated_explanation" :=
        congrArg Prod.fst h
      exact absurd hk (by decide)
  · simp only [hA, Bool.false_eq_true, if_false]
    by_cases hB : truthyO (dget m2 "unversioned") = true
    · simp only [hB, if_true]; exact hnd
    · simp only [hB, Bool.false_eq_true, if_false]
      cases dget m1 "version_deprecated" <;> cases dget m2 "version_deprecated" <;>
        simpa using hnd

/-- The introduced version surviving a metadata merge: the numerically lower
of the two, the first argument's representation winning ties. -/
theorem merge_full_metadata_version (fuel : Nat) (ma mb : List (String × Val))
    (x y : String)
    (hx : dget ma "version" = some (.str x))
    (hy : dget mb "version" = some (.str y))
    (hnb : (dkeys mb).Nodup) :
    (merge_full_metadata (fuel + 1) (.dict ma) (.dict mb)).get "version" =
      some (.str (if compare_versions x y > 0 then y else x)) := by
  have hnd : ∀ v : Val, ("version", v) ∈ mb → ∀ dd : List (String × Val), v ≠ .dict dd := by
    intro v hv dd hvd
    have := mem_dget_of_nodup mb "version" v hnb hv
    rw [hy] at this
    injection this with this
    rw [hvd] at this
    exact Val.noConfusion this
  simp only [merge_full_metadata, Val.get]
  refine pickup_missing_preserves _ _ _ _ ?_ ?_
  · refine children_merge_str _ _ _ _ _ ?_
    rw [deprecation_merge_step_version]
    exact version_merge_step_version ma mb x y hx hy
  · exact deprecation_merge_step_snd_version_free _ _ hnd

/-- C2: for version metadata structures that both carry an introduced
version, merging keeps the numerically earlier version, and the introduced
versions of the two merge orders are numerically equal — but the merged
structures themselves are not identical regardless of order (see the
counterexample), only their introduced versions agree under numeric
comparison. -/
theorem C2_merge_introduced_version_earliest
    (fuel : Nat) (m1 m2 : List (String × Val)) (va vb : String)
    (h1 : dget m1 "version" = some (.str va))
    (h2 : dget m2 "version" = some (.str vb))
    (hn1 : (dkeys m1).Nodup) (hn2 : (dkeys m2).Nodup) :
    (merge_full_metadata (fuel + 1) (.dict m1) (.dict m2)).get "version" =
      some (.str (if compare_versions va vb > 0 then vb else va))
    ∧ ∃ w1 w2 : String,
        (merge_full_metadata (fuel + 1) (.dict m1) (.dict m2)).get "version" =
          some (.str w1) ∧
        (merge_full_metadata (fuel + 1) (.dict m2) (.dict m1)).get "version" =
          some (.str w2) ∧
        compare_versions w1 w2 = 0 := by
  have hab := merge_full_metadata_version fuel m1 m2 va vb h1 h2 hn2
  have hba := merge_full_metadata_version fuel m2 m1 vb va h2 h1 hn1
  refine ⟨hab, _, _, hab, hba, ?_⟩
  have hanti := compare_versions_antisymm va vb
  by_cases h : compare_versions va vb > 0
  · have h2' : ¬(compare_versions vb va > 0) := by omega
    simp only [h, if_true, h2', if_false]
    exact compare_versions_self vb
  · by_cases h3 : compare_versions vb va > 0
    · simp only [h, if_false, h3, if_true]
      exact compare_versions_self va
    · simp only [h, if_false, h3]
      omega

/-- C2 witness: the theorem applied to the concrete metadata pair. -/
theorem C2_merge_introduced_version_earliest_witness :
    (merge_full_metadata 3 metaA metaB).get "version" =
      some (.str (if compare_versions "1.2" "1.0" > 0 then "1.0" else "1.2"))
    ∧ ∃ w1 w2 : String,
        (merge_full_metadata 3 metaA metaB).get "version" = some (.str w1) ∧
        (merge_full_metadata 3 metaB metaA).get "version" = some (.str w2) ∧
        compare_versions w1 w2 = 0 :=
  C2_merge_introduced_version_earliest 2
    [("version", .str "1.2")]
    [("version", .str "1.0"), ("version_deprecated", .str "1.5")]
    "1.2" "1.0" rfl rfl (by decide) (by decide)

/-- C2 counterexample: merging the concrete pair in the two orders yields
different structures (one carries a `version_deprecated_explanation` entry,
the other does not), so the merged result is not identical regardless of
argument order. -/
theorem C2_counterexample :
    (merge_full_metadata 3 metaA metaB).get "version_deprecated_explanation" =
      some (.str "")
    ∧ (merge_full_metadata 3 metaB metaA).get "version_deprecated_explanation" = none
    ∧ merge_full_metadata 3 metaA metaB ≠ merge_full_metadata 3 metaB metaA := by
  refine ⟨rfl, rfl, ?_⟩
  intro h
  have h2 : (merge_full_metadata 3 metaA metaB).get "version_deprecated_explanation" =
      (merge_full_metadata 3 metaB metaA).get "version_deprecated_explanation" := by rw [h]
  rw [show (merge_full_metadata 3 metaA metaB).get "version_deprecated_explanation" =
    some (.str "") from rfl] at h2
  rw [show (merge_full_metadata 3 metaB metaA).get "version_deprecated_explanation" =
    none from rfl] at h2
  exact Option.noConfusion h2

theorem isSome_dget_dset_self (d : List (String × Val)) (k : String) (v : Val) :
    (dget (dset d k v) k).isSome := by
  rw [dget_dset_same]; rfl

theorem isSome_dget_dset (d : List (String × Val)) (k1 : String) (v : Val)
    (k : String) (h : (dget d k).isSome) : (dget (dset d k1 v) k).isSome := by
  by_cases hk : k1 = k
  · subst hk; exact isSome_dget_dset_self d k1 v
  · rw [dget_dset_ne _ _ _ _ hk]; exact h

theorem dset_comm_some (d : List (String × Val)) (k1 k2 : String) (v1 v2 : Val)
    (hne : k1 ≠ k2) (h : (dget d k1).isSome ∨ (dget d k2).isSome) :
    dset (dset d k1 v1) k2 v2 = dset (dset d k2 v2) k1 v1 := by
  induction d with
  | nil => rcases h with h | h <;> simp [dget] at h
  | cons kv rest ih =>
      obtain ⟨k, v⟩ := kv
      by_cases h1 : k = k1
      · subst h1
        simp [dset, hne, Ne.symm hne]
      · by_cases h2 : k = k2
        · subst h2
          simp [dset, hne, Ne.symm hne, h1]
        · have h' : (dget rest k1).isSome ∨ (dget rest k2).isSome := by
            rcases h with h | h
            · left; simpa [dget, h1] using h
            · right; simpa [dget, h2] using h
          simp [dset, h1, h2, ih h']

theorem dget_set_descriptions_ne (d : List (String × Val)) (o : String)
    (k : String) (h1 : k ≠ "description") (h2 : k ≠ "longDescription") :
    dget (set_descriptions d o) k = dget d k := by
  unfold set_descriptions
  rw [dget_dset_ne _ _ _ _ (Ne.symm h2), dget_dset_ne _ _ _ _ (Ne.symm h1)]

theorem dget_set_descriptions_desc (d : List (String × Val)) (o : String) :
    dget (set_descriptions d o) "description" = some (.str o) := by
  unfold set_descriptions
  rw [dget_dset_ne _ _ _ _ (by decide), dget_dset_same]

theorem dget_set_descriptions_long (d : List (String × Val)) (o : String) :
    dget (set_descriptions d o) "longDescription" = some (.str o) := by
  unfold set_descriptions
  rw [dget_dset_same]

theorem isSome_dget_set_descriptions (d : List (String × Val)) (o : String)
    (k : String) (h : (dget d k).isSome) :
    (dget (set_descriptions d o) k).isSome :=
  isSome_dget_dset _ _ _ _ (isSome_dget_dset _ _ _ _ h)

theorem set_descriptions_set_descriptions (d : List (String × Val)) (o1 o2 : String) :
    set_descriptions (set_descriptions d o1) o2 = set_descriptions d o2 := by
  unfold set_descriptions
  rw [dset_comm_some (dset d "description" (.str o1)) "longDescription" "description"
        (.str o1) (.str o2) (by decide) (Or.inr (isSome_dget_dset_self _ _ _)),
      dset_dset_same, dset_dset_same]

theorem set_descriptions_dset_comm (d : List (String × Val)) (k : String)
    (w : Val) (o : String) (h1 : k ≠ "description") (h2 : k ≠ "longDescription")
    (hp : (dget d k).isSome) :
    set_descriptions (dset d k w) o = dset (set_descriptions d o) k w := by
  unfold set_descriptions
  rw [dset_comm_some _ _ _ _ _ h1 (Or.inl hp),
      dset_comm_some _ _ _ _ _ h2 (Or.inl (isSome_dget_dset _ _ _ _ hp))]

theorem set_descriptions_eq_of_dget (d : List (String × Val)) (o : String)
    (hD : dget d "description" = some (.str o))
    (hL : dget d "longDescription" = some (.str o)) :
    set_descriptions d o = d := by
  unfold set_descriptions
  rw [dset_eq_of_dget _ _ _ hD, dset_eq_of_dget _ _ _ hL]

theorem dget_apply_desc_override_ne (d : List (String × Val)) (hit : Option String)
    (k : String) (h1 : k ≠ "description") (h2 : k ≠ "longDescription") :
    dget (apply_desc_override d hit) k = dget d k := by
  cases hit with
  | none => rfl
  | some o => exact dget_set_descriptions_ne d o k h1 h2

theorem isSome_dget_apply_desc_override (d : List (String × Val))
    (hit : Option String) (k : String) (h : (dget d k).isSome) :
    (dget (apply_desc_override d hit) k).isSome := by
  cases hit with
  | none => exact h
  | some o => exact isSome_dget_set_descriptions d o k h

theorem set_descriptions_apply_desc_override (d : List (String × Val))
    (hit : Option String) (o : String) :
    set_descriptions (apply_desc_override d hit) o = set_descriptions d o := by
  cases hit with
  | none => rfl
  | some o1 => exact set_descriptions_set_descriptions d o1 o

theorem dget_apply_fulldesc_override_ne (d : List (String × Val))
    (hit : Option String) (k : String) (h1 : k ≠ "description")
    (h2 : k ≠ "longDescription") (h3 : k ≠ "fulldescription_override") :
    dget (apply_fulldesc_override d hit) k = dget d k := by
  cases hit with
  | none => rfl
  | some o =>
      unfold apply_fulldesc_override
      rw [dget_dset_ne _ _ _ _ (Ne.symm h3), dget_set_descriptions_ne d o k h1 h2]

theorem dget_apply_units_translation_ne (cfg : Config) (d : List (String × Val))
    (k : String) (h : k ≠ "units") :
    dget (apply_units_translation cfg d) k = dget d k := by
  unfold apply_units_translation
  cases getStr (dget d "units") with
  | none => rfl
  | some u =>
      simp only []
      cases strLookup cfg.units_translation u with
      | none => rfl
      | some t =>
          simp only []
          split
          · rw [dget_dset_ne _ _ _ _ (Ne.symm h)]
          · rfl

theorem isSome_of_getStr (o : Option Val) (u : String) (h : getStr o = some u) :
    o.isSome := by
  cases o with
  | none => simp [getStr] at h
  | some v => rfl

theorem isSome_dget_apply_fulldesc_override (d : List (String × Val))
    (hit : Option String) (k : String) (h : (dget d k).isSome) :
    (dget (apply_fulldesc_override d hit) k).isSome := by
  cases hit with
  | none => exact h
  | some o => exact isSome_dget_dset _ _ _ _ (isSome_dget_set_descriptions _ _ _ h)

theorem isSome_dget_apply_units_translation (cfg : Config) (d : List (String × Val))
    (k : String) (h : (dget d k).isSome) :
    (dget (apply_units_translation cfg d) k).isSome := by
  unfold apply_units_translation
  cases getStr (dget d "units") with
  | none => exact h
  | some u =>
      simp only []
      cases strLookup cfg.units_translation u with
      | none => exact h
      | some t =>
          simp only []
          split
          · exact isSome_dget_dset _ _ _ _ h
          · exact h

theorem apply_units_translation_idem (cfg : Config)
    (H : ∀ u t : String, strLookup cfg.units_translation u = some t → t ≠ "" →
      strLookup cfg.units_translation t = none ∨
      strLookup cfg.units_translation t = some t ∨
      strLookup cfg.units_translation t = some "")
    (d : List (String × Val)) :
    apply_units_translation cfg (apply_units_translation cfg d) =
      apply_units_translation cfg d := by
  cases hu : getStr (dget d "units") with
  | none =>
      have hd : apply_units_translation cfg d = d := by
        simp only [apply_units_translation, hu]
      rw [hd, hd]
  | some u =>
      cases hl : strLookup cfg.units_translation u with
      | none =>
          have hd : apply_units_translation cfg d = d := by
            simp only [apply_units_translation, hu, hl]
          rw [hd, hd]
      | some t =>
          by_cases ht : t = ""
          · have hd : apply_units_translation cfg d = d := by
              simp only [apply_units_translation, hu, hl]; simp [ht]
            rw [hd, hd]
          · have hd : apply_units_translation cfg d = dset d "units" (.str t) := by
              simp only [apply_units_translation, hu, hl]; simp [ht]
            rw [hd]
            have hu2 : getStr (dget (dset d "units" (.str t)) "units") = some t := by
              rw [dget_dset_same]; rfl
            rcases H u t hl ht with hc | hc | hc
            · simp only [apply_units_translation, hu2, hc]
            · simp only [apply_units_translation, hu2, hc]
              rw [if_pos ht, dset_dset_same]
            · simp only [apply_units_translation, hu2, hc]
              simp
 
theorem apply_units_dset_comm (cfg : Config) (X : List (String × Val))
    (k : String) (w : Val) (hk : k ≠ "units") :
    dset (apply_units_translation cfg X) k w =
      apply_units_translation cfg (dset X k w) := by
  have hsame : dget (dset X k w) "units" = dget X "units" :=
    dget_dset_ne _ _ _ _ hk
  cases hu : getStr (dget X "units") with
  | none =>
      have h1 : apply_units_translation cfg X = X := by
        simp only [apply_units_translation, hu]
      have h2 : apply_units_translation cfg (dset X k w) = dset X k w := by
        simp only [apply_units_translation, hsame, hu]
      rw [h1, h2]
  | some u =>
      cases hl : strLookup cfg.units_translation u with
      | none =>
          have h1 : apply_units_translation cfg X = X := by
            simp only [apply_units_translation, hu, hl]
          have h2 : apply_units_translation cfg (dset X k w) = dset X k w := by
            simp only [apply_units_translation, hsame, hu, hl]
          rw [h1, h2]
      | some t =>
          by_cases ht : t = ""
          · have h1 : apply_units_translation cfg X = X := by
              simp only [apply_units_translation, hu, hl]; simp [ht]
            have h2 : apply_units_translation cfg (dset X k w) = dset X k w := by
              simp only [apply_units_translation, hsame, hu, hl]; simp [ht]
            rw [h1, h2]
          · have h1 : apply_units_translation cfg X = dset X "units" (.str t) := by
              simp only [apply_units_translation, hu, hl]; simp [ht]
            have h2 : apply_units_translation cfg (dset X k w) =
                dset (dset X k w) "units" (.str t) := by
              simp only [apply_units_translation, hsame, hu, hl]; simp [ht]
            rw [h1, h2]
            exact dset_comm_some X "units" k (.str t) w (Ne.symm hk)
              (Or.inl (isSome_of_getStr _ _ hu))

theorem apply_units_set_descriptions_comm (cfg : Config)
    (X : List (String × Val)) (o : String) :
    set_descriptions (apply_units_translation cfg X) o =
      apply_units_translation cfg (set_descriptions X o) := by
  unfold set_descriptions
  rw [apply_units_dset_comm cfg X "description" (.str o) (by decide),
      apply_units_dset_comm cfg _ "longDescription" (.str o) (by decide)]

theorem overrides_core_dget_preserved (cfg : Config)
    (lo lfo : List (String × String)) (pn : Option String)
    (d0 : List (String × Val)) (k : String)
    (h1 : k ≠ "description") (h2 : k ≠ "longDescription")
    (h3 : k ≠ "fulldescription_override") (h4 : k ≠ "units") :
    dget (overrides_core cfg lo lfo pn d0) k = dget d0 k := by
  unfold overrides_core
  split
  · rw [dget_apply_fulldesc_override_ne _ _ _ h1 h2 h3,
        dget_apply_desc_override_ne _ _ _ h1 h2,
        dget_dset_ne _ _ _ _ (Ne.symm h3)]
  · rw [dget_apply_units_translation_ne _ _ _ h4,
        dget_apply_fulldesc_override_ne _ _ _ h1 h2 h3,
        dget_apply_desc_override_ne _ _ _ h1 h2,
        dget_dset_ne _ _ _ _ (Ne.symm h3)]

theorem fulldesc_reapply (A : List (String × Val)) (hLO : Option String)
    (o2 : String) (hF : (dget A "fulldescription_override").isSome) :
    apply_fulldesc_override
      (apply_desc_override
        (dset (dset (set_descriptions A o2) "fulldescription_override" (.bool true))
          "fulldescription_override" (.bool false))
        hLO)
      (some o2) =
    dset (set_descriptions A o2) "fulldescription_override" (.bool true) := by
  have hSD : (dget (set_descriptions A o2) "fulldescription_override").isSome :=
    isSome_dget_set_descriptions _ _ _ hF
  show dset (set_descriptions (apply_desc_override _ hLO) o2)
    "fulldescription_override" (.bool true) = _
  rw [set_descriptions_apply_desc_override, dset_dset_same,
      set_descriptions_dset_comm _ _ _ _ (by decide) (by decide) hSD,
      set_descriptions_set_descriptions, dset_dset_same]

theorem global_full_reapply (cfg : Config)
    (H : ∀ u t : String, strLookup cfg.units_translation u = some t → t ≠ "" →
      strLookup cfg.units_translation t = none ∨
      strLookup cfg.units_translation t = some t ∨
      strLookup cfg.units_translation t = some "")
    (B : List (String × Val)) (gH : Option String) (g2 : String)
    (hF : (dget B "fulldescription_override").isSome) :
    apply_units_translation cfg
      (apply_fulldesc_override
        (apply_desc_override
          (dset (apply_units_translation cfg
              (dset (set_descriptions B g2) "fulldescription_override" (.bool true)))
            "fulldescription_override" (.bool false))
          gH)
        (some g2)) =
    apply_units_translation cfg
      (dset (set_descriptions B g2) "fulldescription_override" (.bool true)) := by
  have hSD : (dget (set_descriptions B g2) "fulldescription_override").isSome :=
    isSome_dget_set_descriptions _ _ _ hF
  show apply_units_translation cfg
    (dset (set_descriptions (apply_desc_override _ gH) g2)
      "fulldescription_override" (.bool true)) = _
  rw [apply_units_dset_comm cfg _ "fulldescription_override" (.bool false) (by decide),
      dset_dset_same, set_descriptions_apply_desc_override,
      apply_units_set_descriptions_comm,
      set_descriptions_dset_comm _ _ _ _ (by decide) (by decide) hSD,
      set_descriptions_set_descriptions,
      apply_units_dset_comm cfg _ "fulldescription_override" (.bool true) (by decide),
      dset_dset_same]
  exact apply_units_translation_idem cfg H _

theorem overrides_core_idem (cfg : Config)
    (lo lfo : List (String × String)) (pn : Option String)
    (H : ∀ u t : String, strLookup cfg.units_translation u = some t → t ≠ "" →
      strLookup cfg.units_translation t = none ∨
      strLookup cfg.units_translation t = some t ∨
      strLookup cfg.units_translation t = some "")
    (d0 : List (String × Val)) :
    overrides_core cfg lo lfo pn (overrides_core cfg lo lfo pn d0) =
      overrides_core cfg lo lfo pn d0 := by
  have hFdI : (dget (dset d0 "fulldescription_override" (.bool false))
      "fulldescription_override").isSome := isSome_dget_dset_self _ _ _
  by_cases hcond : ((hitFor lo pn).isSome || (hitFor lfo pn).isSome) = true
  · cases hLF : hitFor lfo pn with
    | none =>
        have hLO : ∃ o1, hitFor lo pn = some o1 := by
          rcases h : hitFor lo pn with _ | o1
          · rw [h, hLF] at hcond; simp at hcond
          · exact ⟨o1, rfl⟩
        obtain ⟨o1, hLO⟩ := hLO
        have hD1 : overrides_core cfg lo lfo pn d0 =
            set_descriptions (dset d0 "fulldescription_override" (.bool false)) o1 := by
          unfold overrides_core
          rw [if_pos hcond, hLO, hLF]
          rfl
        rw [hD1]
        unfold overrides_core
        rw [if_pos hcond, hLO, hLF]
        show set_descriptions (dset (set_descriptions
          (dset d0 "fulldescription_override" (.bool false)) o1)
          "fulldescription_override" (.bool false)) o1 = _
        have hFv : dget (set_descriptions
            (dset d0 "fulldescription_override" (.bool false)) o1)
            "fulldescription_override" = some (.bool false) := by
          rw [dget_set_descriptions_ne _ _ _ (by decide) (by decide), dget_dset_same]
        rw [dset_eq_of_dget _ _ _ hFv, set_descriptions_set_descriptions]
    | some o2 =>
        have hD1 : overrides_core cfg lo lfo pn d0 =
            dset (set_descriptions
              (apply_desc_override (dset d0 "fulldescription_override" (.bool false))
                (hitFor lo pn)) o2)
              "fulldescription_override" (.bool true) := by
          unfold overrides_core
          rw [if_pos hcond, hLF]
          rfl
        rw [hD1]
        unfold overrides_core
        rw [if_pos hcond, hLF]
        exact fulldesc_reapply _ (hitFor lo pn) o2
          (isSome_dget_apply_desc_override _ _ _ hFdI)
  · have hD1 : overrides_core cfg lo lfo pn d0 =
        apply_units_translation cfg
          (apply_fulldesc_override
            (apply_desc_override (dset d0 "fulldescription_override" (.bool false))
              (hitFor cfg.property_description_overrides pn))
            (hitFor cfg.property_fulldescription_overrides pn)) := by
      unfold overrides_core
      rw [if_neg hcond]
    cases hGF : hitFor cfg.property_fulldescription_overrides pn with
    | none =>
        have hB : overrides_core cfg lo lfo pn d0 =
            apply_units_translation cfg
              (apply_desc_override (dset d0 "fulldescription_override" (.bool false))
                (hitFor cfg.property_description_overrides pn)) := by
          rw [hD1, hGF]; rfl
        have hFD1 : dget (apply_units_translation cfg
            (apply_desc_override (dset d0 "fulldescription_override" (.bool false))
              (hitFor cfg.property_description_overrides pn)))
            "fulldescription_override" = some (.bool false) := by
          rw [dget_apply_units_translation_ne _ _ _ (by decide),
              dget_apply_desc_override_ne _ _ _ (by decide) (by decide),
              dget_dset_same]
        rw [hB]
        unfold overrides_core
        rw [if_neg hcond, hGF]
        show apply_units_translation cfg
          (apply_desc_override
            (dset (apply_units_translation cfg
              (apply_desc_override (dset d0 "fulldescription_override" (.bool false))
                (hitFor cfg.property_description_overrides pn)))
              "fulldescription_override" (.bool false))
            (hitFor cfg.property_description_overrides pn)) = _
        rw [dset_eq_of_dget _ _ _ hFD1]
        cases hGH : hitFor cfg.property_description_overrides pn with
        | none =>
            show apply_units_translation cfg (apply_units_translation cfg
              (apply_desc_override (dset d0 "fulldescription_override" (.bool false))
                none)) = _
            exact apply_units_translation_idem cfg H _
        | some g1 =>
            show apply_units_translation cfg
              (set_descriptions (apply_units_translation cfg
                (set_descriptions (dset d0 "fulldescription_override" (.bool false)) g1)) g1) = _
            rw [apply_units_set_descriptions_comm, set_descriptions_set_descriptions]
            exact apply_units_translation_idem cfg H _
    | some g2 =>
        have hB : overrides_core cfg lo lfo pn d0 =
            apply_units_translation cfg
              (dset (set_descriptions
                (apply_desc_override (dset d0 "fulldescription_override" (.bool false))
                  (hitFor cfg.property_description_overrides pn)) g2)
                "fulldescription_override" (.bool true)) := by
          rw [hD1, hGF]; rfl
        rw [hB]
        unfold overrides_core
        rw [if_neg hcond, hGF]
        exact global_full_reapply cfg H _ (hitFor cfg.property_description_overrides pn)
          g2 (isSome_dget_apply_desc_override _ _ _ hFdI)

theorem apply_overrides_dict (cfg : Config) (d0 : List (String × Val))
    (sA pA : Option String) :
    apply_overrides cfg (.dict d0) sA pA =
      .dict (overrides_core cfg
        (match effective_name sA d0 "_schema_name" with
         | some sn => (tblLookup cfg.schema_supplement_description_overrides sn).getD []
         | none => [])
        (match effective_name sA d0 "_schema_name" with
         | some sn => (tblLookup cfg.schema_supplement_fulldescription_overrides sn).getD []
         | none => [])
        (effective_name pA d0 "_prop_name") d0) := rfl

theorem effective_name_overrides_core (cfg : Config)
    (lo lfo : List (String × String)) (pn : Option String)
    (d0 : List (String × Val)) (arg : Option String) (field : String)
    (h1 : field ≠ "description") (h2 : field ≠ "longDescription")
    (h3 : field ≠ "fulldescription_override") (h4 : field ≠ "units") :
    effective_name arg (overrides_core cfg lo lfo pn d0) field =
      effective_name arg d0 field := by
  have hd := overrides_core_dget_preserved cfg lo lfo pn d0 field h1 h2 h3 h4
  cases arg with
  | none => simp [effective_name, hd]
  | some s => simp [effective_name, hd]

/-- C10: `apply_overrides` is idempotent whenever the units translation
table is stable, i.e. every translation target is itself untranslated,
translated to itself, or translated to the empty string.  (Lines 1600-1632:
the description and full-description overrides rewrite the same keys to the
same values on a second pass, and the stability condition makes the units
translation of lines 1628-1630 idempotent.)  Unconditional idempotence, as
claimed, is false: a chained units table translates twice, see the
counterexample. -/
theorem C10_apply_overrides_idempotent_of_stable_units (cfg : Config)
    (prop_info : Val) (sA pA : Option String)
    (H : ∀ u t : String, strLookup cfg.units_translation u = some t → t ≠ "" →
      strLookup cfg.units_translation t = none ∨
      strLookup cfg.units_translation t = some t ∨
      strLookup cfg.units_translation t = some "") :
    apply_overrides cfg (apply_overrides cfg prop_info sA pA) sA pA =
      apply_overrides cfg prop_info sA pA := by
  cases prop_info with
  | null => rfl
  | bool b => rfl
  | str s => rfl
  | list xs => rfl
  | dict d0 =>
      rw [apply_overrides_dict, apply_overrides_dict,
          effective_name_overrides_core cfg _ _ _ d0 sA "_schema_name"
            (by decide) (by decide) (by decide) (by decide),
          effective_name_overrides_core cfg _ _ _ d0 pA "_prop_name"
            (by decide) (by decide) (by decide) (by decide)]
      exact congrArg Val.dict (overrides_core_idem cfg _ _ _ H d0)

/-- Witness for C10 at a concrete input: with an empty units table the
stability hypothesis holds vacuously and a second application of
`apply_overrides` changes nothing. -/
theorem C10_witness :
    apply_overrides cfg0 (apply_overrides cfg0 pC10 none none) none none =
      apply_overrides cfg0 pC10 none none :=
  C10_apply_overrides_idempotent_of_stable_units cfg0 pC10 none none
    (fun _ _ h => Option.noConfusion h)

/-- Counterexample to unconditional idempotence of `apply_overrides`: with
the chained units table a maps-to b, b maps-to c, one application rewrites
the units from a to b and a second application rewrites them again to c. -/
theorem C10_counterexample :
    apply_overrides cfgC10 (apply_overrides cfgC10 pC10 none none) none none ≠
      apply_overrides cfgC10 pC10 none none
    ∧ (apply_overrides cfgC10 pC10 none none).get "units" = some (.str "b")
    ∧ (apply_overrides cfgC10 (apply_overrides cfgC10 pC10 none none)
        none none).get "units" = some (.str "c") := by
  refine ⟨?_, rfl, rfl⟩
  intro h
  have h2 : (apply_overrides cfgC10 (apply_overrides cfgC10 pC10 none none)
      none none).get "units" = (apply_overrides cfgC10 pC10 none none).get "units" := by
    rw [h]
  rw [show (apply_overrides cfgC10 (apply_overrides cfgC10 pC10 none none)
      none none).get "units" = some (.str "c") from rfl] at h2
  rw [show (apply_overrides cfgC10 pC10 none none).get "units" =
      some (.str "b") from rfl] at h2
  simp at h2

theorem prop_type_fields_no_null (v t : Val)
    (h : t ∈ (prop_type_fields v).prop_type) : isNullType (some t) = false := by
  simp only [prop_type_fields] at h
  have h2 := (List.mem_filter.1 h).2
  simpa using h2

theorem mem_combine_inner (fuel : Nat) (l : List Val) :
    ∀ (acc : List Val) (t : Val),
      t ∈ l.foldl (fun acc2 v =>
        if v.truthy && !(acc2.any (fun w => valBeq fuel w v)) then acc2 ++ [v]
        else acc2) acc →
      t ∈ acc ∨ t ∈ l := by
  induction l with
  | nil => intro acc t h; exact Or.inl h
  | cons x xs ih =>
      intro acc t h
      rcases ih _ t h with h1 | h2
      · have h1b : t ∈ if (x.truthy && !(acc.any (fun w => valBeq fuel w x))) = true
            then acc ++ [x] else acc := h1
        by_cases hc : (x.truthy && !(acc.any (fun w => valBeq fuel w x))) = true
        · rw [if_pos hc] at h1b
          rcases List.mem_append.1 h1b with ha | hb
          · exact Or.inl ha
          · rw [List.mem_singleton] at hb
            subst hb
            exact Or.inr (List.mem_cons_self _ _)
        · rw [if_neg hc] at h1b
          exact Or.inl h1b
      · exact Or.inr (List.mem_cons_of_mem _ h2)

theorem mem_combine_unique (fuel : Nat) (lists : List (List Val)) (t : Val)
    (h : t ∈ combine_unique fuel lists) : ∃ l ∈ lists, t ∈ l := by
  unfold combine_unique at h
  suffices hgen : ∀ (ls : List (List Val)) (acc : List Val),
      t ∈ ls.foldl (fun acc l => l.foldl (fun acc2 v =>
        if v.truthy && !(acc2.any (fun w => valBeq fuel w v)) then acc2 ++ [v]
        else acc2) acc) acc →
      t ∈ acc ∨ ∃ l ∈ ls, t ∈ l by
    rcases hgen lists [] h with h0 | h1
    · exact absurd h0 (List.not_mem_nil t)
    · exact h1
  intro ls
  induction ls with
  | nil => intro acc h0; exact Or.inl h0
  | cons l rest ih =>
      intro acc h0
      rcases ih _ h0 with h1 | h2
      · rcases mem_combine_inner fuel l acc t h1 with ha | hb
        · exact Or.inl ha
        · exact Or.inr ⟨l, List.mem_cons_self _ _, hb⟩
      · obtain ⟨l2, hl2, htl2⟩ := h2
        exact Or.inr ⟨l2, List.mem_cons_of_mem _ hl2, htl2⟩

theorem parse_no_null : ∀ (fuel : Nat) (v t : Val),
    t ∈ (parse_property_info_types fuel v).prop_type → isNullType (some t) = false := by
  intro fuel
  induction fuel with
  | zero =>
      intro v t h
      simp [parse_property_info_types] at h
  | succ n ih =>
      intro v t h
      match v with
      | .null => exact prop_type_fields_no_null _ _ h
      | .bool b => exact prop_type_fields_no_null _ _ h
      | .str s => exact prop_type_fields_no_null _ _ h
      | .dict d => exact prop_type_fields_no_null _ _ h
      | .list [] =>
          rcases mem_combine_unique n _ t h with ⟨l, hl, _⟩
          simp at hl
      | .list [x] => exact ih x t h
      | .list (x :: y :: rest) =>
          rcases mem_combine_unique n _ t h with ⟨l, hl, htl⟩
          rcases List.mem_map.1 hl with ⟨det, hdet, hdl⟩
          rcases List.mem_map.1 hdet with ⟨z, _, hz⟩
          exact ih z t (by rw [hz, hdl]; exact htl)

/-- C4: if the nullable flag of a parsed property is true, the string "null"
does not appear in its cleaned type-tag list.  In fact "null" never appears
there: `_parse_single_property_info` (lines 1145-1152) strips every "null"
entry into the flag, and the combination of `parse_property_info` (lines
1029-1042) only draws from already-cleaned lists. -/
theorem C4_nullable_implies_no_null_type (fuel : Nat) (v : Val)
    (hn : (parse_property_info_types fuel v).nullable = true) :
    Val.str "null" ∉ (parse_property_info_types fuel v).prop_type := by
  intro hmem
  have := parse_no_null fuel v _ hmem
  simp [isNullType] at this

/-- Witness for C4 at a concrete input: a property with type
["string", "null"] parses as nullable with "null" absent from the type
list. -/
theorem C4_witness :
    (parse_property_info_types 1 pC4).nullable = true ∧
      Val.str "null" ∉ (parse_property_info_types 1 pC4).prop_type :=
  ⟨rfl, C4_nullable_implies_no_null_type 1 pC4 rfl⟩

theorem mem_dkeys_dset (l : List (String × Val)) (k : String) (v : Val)
    (a : String) (h : a ∈ dkeys (dset l k v)) : a ∈ dkeys l ∨ a = k := by
  induction l with
  | nil =>
      right
      simpa [dset, dkeys] using h
  | cons kv rest ih =>
      obtain ⟨k1, v1⟩ := kv
      by_cases hk : k1 = k
      · rw [show dset ((k1, v1) :: rest) k v = (k, v) :: rest from by
          simp [dset, hk]] at h
        rw [show dkeys ((k, v) :: rest) = k :: dkeys rest from rfl] at h
        rcases List.mem_cons.1 h with h1 | h2
        · exact Or.inr h1
        · exact Or.inl (List.mem_cons_of_mem _ h2)
      · rw [show dset ((k1, v1) :: rest) k v = (k1, v1) :: dset rest k v from by
          simp [dset, hk]] at h
        rw [show dkeys ((k1, v1) :: dset rest k v) = k1 :: dkeys (dset rest k v)
          from rfl] at h
        rcases List.mem_cons.1 h with h1 | h2
        · exact Or.inl (h1 ▸ List.mem_cons_self _ _)
        · rcases ih h2 with h3 | h4
          · exact Or.inl (List.mem_cons_of_mem _ h3)
          · exact Or.inr h4

theorem nodup_dkeys_dset (l : List (String × Val)) (k : String) (v : Val)
    (h : (dkeys l).Nodup) : (dkeys (dset l k v)).Nodup := by
  induction l with
  | nil => simp [dset, dkeys]
  | cons kv rest ih =>
      obtain ⟨k1, v1⟩ := kv
      rw [show dkeys ((k1, v1) :: rest) = k1 :: dkeys rest from rfl,
        List.nodup_cons] at h
      by_cases hk : k1 = k
      · rw [show dset ((k1, v1) :: rest) k v = (k, v) :: rest from by
          simp [dset, hk]]
        rw [show dkeys ((k, v) :: rest) = k :: dkeys rest from rfl,
          List.nodup_cons]
        exact ⟨hk ▸ h.1, h.2⟩
      · rw [show dset ((k1, v1) :: rest) k v = (k1, v1) :: dset rest k v from by
          simp [dset, hk]]
        rw [show dkeys ((k1, v1) :: dset rest k v) = k1 :: dkeys (dset rest k v)
          from rfl, List.nodup_cons]
        refine ⟨fun hmem => ?_, ih h.2⟩
        rcases mem_dkeys_dset rest k v k1 hmem with h1 | h2
        · exact h.1 h1
        · exact hk h2

theorem register_common_property_absent (pool : List (String × Val))
    (k : String) (x : Val)
    (h : dget pool k = none ∨ dget pool k = some Val.null) :
    register_common_property pool k x = dset pool k x := by
  unfold register_common_property
  rcases h with h | h <;> rw [h]

theorem register_common_property_present (pool : List (String × Val))
    (k : String) (x : Val) (v : Val) (h : dget pool k = some v)
    (hv : v ≠ Val.null) : register_common_property pool k x = pool := by
  unfold register_common_property
  rw [h]
  cases v with
  | null => exact absurd rfl hv
  | bool b => rfl
  | str s => rfl
  | list xs => rfl
  | dict d => rfl

/-- C8: the common-object pool keeps at most one entry per unversioned
reference key (lines 743-744).  Registering under a key already mapped to a
non-null object leaves the pool untouched, so a second registration of the
same key after a first one is a no-op, distinctness of the pool keys is
preserved and the key is present afterwards. -/
theorem C8_common_pool_single_entry (pool : List (String × Val)) (k : String)
    (x y : Val) (hx : x ≠ Val.null) (hnd : (dkeys pool).Nodup) :
    register_common_property (register_common_property pool k x) k y =
      register_common_property pool k x
    ∧ (dkeys (register_common_property pool k x)).Nodup
    ∧ (dget (register_common_property pool k x) k).isSome := by
  by_cases habs : dget pool k = none ∨ dget pool k = some Val.null
  · have h1 := register_common_property_absent pool k x habs
    rw [h1]
    exact ⟨register_common_property_present _ _ y x (dget_dset_same pool k x) hx,
      nodup_dkeys_dset pool k x hnd, isSome_dget_dset_self pool k x⟩
  · push_neg at habs
    obtain ⟨v, hv⟩ : ∃ v, dget pool k = some v := by
      cases hvv : dget pool k with
      | none => exact absurd hvv habs.1
      | some v => exact ⟨v, rfl⟩
    have hvne : v ≠ Val.null := fun hh => habs.2 (hh ▸ hv)
    have h1 := register_common_property_present pool k x v hv hvne
    rw [h1]
    exact ⟨register_common_property_present pool k y v hv hvne, hnd,
      by rw [hv]; rfl⟩

/-- Witness for C8 at a concrete input: registering the same unversioned key
from two schemas stores it once; the second registration leaves the pool
unchanged. -/
theorem C8_witness :
    register_common_property
        (register_common_property [] "http://e/X.json"
          (Val.dict [("type", Val.str "object")]))
        "http://e/X.json" (Val.dict [("description", Val.str "other")]) =
      register_common_property [] "http://e/X.json"
        (Val.dict [("type", Val.str "object")])
    ∧ (dkeys (register_common_property [] "http://e/X.json"
        (Val.dict [("type", Val.str "object")]))).Nodup
    ∧ (dget (register_common_property [] "http://e/X.json"
        (Val.dict [("type", Val.str "object")])) "http://e/X.json").isSome :=
  C8_common_pool_single_entry [] "http://e/X.json"
    (Val.dict [("type", Val.str "object")])
    (Val.dict [("description", Val.str "other")])
    (by simp) (by simp [dkeys])

/-- C9: `apply_overrides` works on a copy (modelled by value passing), but
`extend_property_info` is not mutation-free: lines 846-849 write the carried
parent properties into the dictionaries of the anyOf list of its argument in
place, and lines 853-859 mark the first contributing element nullable, so
the original definition structure is changed whenever a truthy anyOf list is
processed without being collapsed (see the counterexample).  When the
definition has no truthy anyOf list, every successful path returns the
original definition unchanged. -/
theorem C9_no_mutation_without_anyof (env : Env) (cfg : Config) (fuel : Nat)
    (st : St) (schema_ref : String) (prop_info0 context_meta : Val)
    (h : truthyO (prop_info0.get "anyOf") = false)
    (st2 : St) (infos : List Val) (fin : Val) (al : Bool)
    (hok : extend_property_info env cfg fuel st schema_ref prop_info0
      context_meta = .ok (st2, infos, fin, al)) :
    fin = prop_info0 := by
  match fuel with
  | 0 => exact absurd hok (by simp [extend_property_info])
  | fuel + 1 =>
      simp only [extend_property_info, h, Bool.false_eq_true, if_false] at hok
      repeat' split at hok
      all_goals simp_all

/-- Witness for C9 at a concrete input: a plain definition (no anyOf) is
returned by `extend_property_info` with its final value equal to the
input. -/
theorem C9_witness :
    truthyO (pC1.get "anyOf") = false ∧
    ∃ r, extend_property_info env0 cfg0 1 st0 "S" pC1 (.dict []) = .ok r ∧
      r.2.2.1 = pC1 :=
  ⟨rfl, (st0, [pC1], pC1, true), rfl,
    C9_no_mutation_without_anyof env0 cfg0 1 st0 "S" pC1 (.dict []) rfl
      st0 [pC1] pC1 true rfl⟩

/-- Counterexample to the claimed absence of mutation: resolving a
definition with a description and an anyOf list holding a reference and a
null marker rewrites the reference element of the anyOf list in place
(parent-property copy of lines 846-849 and nullable marking of lines
853-859), so the final definition differs from the input. -/
theorem C9_counterexample :
    extend_property_info env0 cfg0 2 st0 "S" pC9 (.dict []) =
      .ok ({ common_properties := [],
             warnings := ["Unable to find data for http://e/Z.json#/definitions/Z"] },
        [Val.dict [("$ref", Val.str "http://e/Z.json#/definitions/Z"),
                   ("description", Val.str "D"),
                   ("nullable", Val.bool true),
                   ("type", Val.str "null")]],
        Val.dict [("description", Val.str "D"),
          ("anyOf", Val.list
            [Val.dict [("$ref", Val.str "http://e/Z.json#/definitions/Z"),
                       ("description", Val.str "D"),
                       ("nullable", Val.bool true),
                       ("type", Val.str "null")],
             Val.dict [("type", Val.str "null")]])],
        false)
    ∧ Val.dict [("description", Val.str "D"),
        ("anyOf", Val.list
          [Val.dict [("$ref", Val.str "http://e/Z.json#/definitions/Z"),
                     ("description", Val.str "D"),
                     ("nullable", Val.bool true),
                     ("type", Val.str "null")],
           Val.dict [("type", Val.str "null")]])] ≠ pC9 := by
  refine ⟨rfl, ?_⟩
  simp [pC9]

theorem charListLe_total : ∀ a b : List Char,
    charListLe a b = true ∨ charListLe b a = true := by
  intro a
  induction a with
  | nil => intro b; exact Or.inl rfl
  | cons x xs ih =>
      intro b
      cases b with
      | nil => exact Or.inr rfl
      | cons y ys =>
          by_cases h1 : x.toNat < y.toNat
          · left
            simp [charListLe, h1]
          · by_cases h2 : y.toNat < x.toNat
            · right
              simp [charListLe, h2]
            · rcases ih ys with h | h
              · left
                simp [charListLe, h1, h2, h]
              · right
                simp [charListLe, h1, h2, h]

theorem lowerLe_total (a b : String) : lowerLe a b = true ∨ lowerLe b a = true :=
  charListLe_total _ _

theorem mem_insertLower (x a : String) : ∀ l : List String,
    a ∈ insertLower x l ↔ a = x ∨ a ∈ l := by
  intro l
  induction l with
  | nil => simp [insertLower]
  | cons y ys ih =>
      by_cases h : lowerLe x y = true
      · simp [insertLower, h]
      · rw [Bool.not_eq_true] at h
        rw [show insertLower x (y :: ys) = y :: insertLower x ys from by
          simp [insertLower, h]]
        rw [List.mem_cons, ih, List.mem_cons]
        tauto

theorem mem_sortByLower (a : String) (l : List String) :
    a ∈ sortByLower l ↔ a ∈ l := by
  induction l with
  | nil => simp [sortByLower]
  | cons y ys ih =>
      rw [show sortByLower (y :: ys) = insertLower y (sortByLower ys) from rfl,
        mem_insertLower, ih, List.mem_cons]

theorem sorted_insertLower (x : String) : ∀ l : List String,
    LowerSorted l → LowerSorted (insertLower x l) := by
  intro l
  induction l with
  | nil => intro _; simp [insertLower, LowerSorted]
  | cons y ys ih =>
      intro hs
      rw [show LowerSorted (y :: ys) =
        (List.Chain' (fun a b => lowerLe a b = true) (y :: ys)) from rfl,
        List.chain'_cons'] at hs
      by_cases h : lowerLe x y = true
      · rw [show insertLower x (y :: ys) = x :: y :: ys from by simp [insertLower, h]]
        unfold LowerSorted
        rw [List.chain'_cons]
        exact ⟨h, List.chain'_cons'.2 hs⟩
      · rw [show insertLower x (y :: ys) = y :: insertLower x ys from by
          simp [insertLower, h]]
        unfold LowerSorted
        rw [List.chain'_cons']
        refine ⟨?_, ih hs.2⟩
        intro z hz
        rcases (mem_insertLower x z ys).1 (List.mem_of_mem_head? hz) with hzx | hzys
        · rw [hzx]
          exact Or.resolve_left (lowerLe_total x y) h
        · cases ys with
          | nil => simp at hzys
          | cons w ws =>
              have hhd : (insertLower x (w :: ws)).head? = some z := hz
              by_cases hw : lowerLe x w = true
              · rw [show insertLower x (w :: ws) = x :: w :: ws from by
                  simp [insertLower, hw]] at hhd
                simp at hhd
                rw [← hhd]
                exact Or.resolve_left (lowerLe_total x y) h
              · rw [show insertLower x (w :: ws) = w :: insertLower x ws from by
                  simp [insertLower, hw]] at hhd
                simp at hhd
                rw [← hhd]
                exact hs.1 w rfl

theorem sorted_sortByLower (l : List String) : LowerSorted (sortByLower l) := by
  induction l with
  | nil => simp [sortByLower, LowerSorted]
  | cons y ys ih =>
      rw [show sortByLower (y :: ys) = insertLower y (sortByLower ys) from rfl]
      exact sorted_insertLower y _ ih

theorem contains_iff_mem (l : List String) (x : String) :
    l.contains x = true ↔ x ∈ l := List.elem_iff

/-- C6: in terse conformance mode, `filter_props_by_profile` keeps exactly
the requested names appearing as keys of the profile fragment
PropertyRequirements section, plus the literal name "Actions" when the
fragment declares any ActionRequirements, and the result is sorted
case-insensitively ascending (lines 878-904). -/
theorem C6_terse_filter_characterization (cfg : Config)
    (prop_names : List String) (P : Val)
    (hmode : cfg.profile_mode = some "terse") :
    (∀ x, x ∈ filter_props_by_profile cfg prop_names (some P) false ↔
      (x ∈ prop_names ∧
        (x ∈ (match P.get "PropertyRequirements" with
              | some (.dict d) => dkeys d
              | _ => []) ∨
         (truthyO (P.get "ActionRequirements") = true ∧ x = "Actions"))))
    ∧ LowerSorted (filter_props_by_profile cfg prop_names (some P) false) := by
  have hred : filter_props_by_profile cfg prop_names (some P) false =
      sortByLower ((prop_names.dedup).filter (fun x =>
        ((if truthyO (P.get "ActionRequirements") then
            (match P.get "PropertyRequirements" with
             | some (.dict d) => dkeys d
             | _ => []) ++ ["Actions"]
          else (match P.get "PropertyRequirements" with
                | some (.dict d) => dkeys d
                | _ => [])).contains x))) := by
    unfold filter_props_by_profile
    rw [hmode]
    rfl
  rw [hred]
  refine ⟨?_, sorted_sortByLower _⟩
  intro x
  rw [mem_sortByLower, List.mem_filter, List.mem_dedup]
  by_cases hA : truthyO (P.get "ActionRequirements") = true
  · rw [if_pos hA, contains_iff_mem]
    simp [hA, List.mem_append]
  · rw [if_neg hA, contains_iff_mem]
    simp [hA]

/-- Witness for C6 at the spec example: profile fragment with Status in
PropertyRequirements and a nonempty ActionRequirements, requested names
["Status", "Id", "Actions"], giving ["Actions", "Status"]. -/
theorem C6_witness :
    filter_props_by_profile cfgTerse ["Status", "Id", "Actions"]
      (some profC6) false = ["Actions", "Status"]
    ∧ ((∀ x, x ∈ filter_props_by_profile cfgTerse ["Status", "Id", "Actions"]
          (some profC6) false ↔
        (x ∈ ["Status", "Id", "Actions"] ∧
          (x ∈ (match profC6.get "PropertyRequirements" with
                | some (.dict d) => dkeys d
                | _ => []) ∨
           (truthyO (profC6.get "ActionRequirements") = true ∧ x = "Actions"))))
      ∧ LowerSorted (filter_props_by_profile cfgTerse ["Status", "Id", "Actions"]
          (some profC6) false)) :=
  ⟨rfl, C6_terse_filter_characterization cfgTerse ["Status", "Id", "Actions"]
    profC6 rfl⟩

theorem strLookup_sset_same (l : List (String × String)) (k v : String) :
    strLookup (sset l k v) k = some v := by
  induction l with
  | nil => simp [sset, strLookup]
  | cons kv rest ih =>
      obtain ⟨k1, v1⟩ := kv
      by_cases h : k1 = k <;> simp [sset, strLookup, h, ih]

theorem strLookup_sset_ne (l : List (String × String)) (k1 v k : String)
    (h : k1 ≠ k) : strLookup (sset l k1 v) k = strLookup l k := by
  induction l with
  | nil => simp [sset, strLookup, h]
  | cons kv rest ih =>
      obtain ⟨k2, v2⟩ := kv
      by_cases h2 : k2 = k1 <;> simp_all [sset, strLookup]

theorem collapse_step_ref (r u tv : String) (st : CollapseSt)
    (hr : r ≠ "") (hu : make_unversioned_ref r = u)
    (htv : get_ref_version r = some tv) (htv2 : tv ≠ "")
    (hm : st.match_ref = u) (hl : truthyS st.latest_ref = true) :
    collapse_step (refdict r) st = .ok (.cont
      { match_ref := u, unversioned_ref := u,
        latest_ref := st.latest_ref,
        latest_version :=
          if compare_versions st.latest_version (replace_underscores tv) < 0
          then replace_underscores tv else st.latest_version,
        cleaned_version := some (replace_underscores tv),
        refs_by_version := sset st.refs_by_version (replace_underscores tv) r }) := by
  obtain ⟨mr, ur, lr, lv, cvv, rbv⟩ := st
  simp only [CollapseSt.match_ref] at hm
  subst hm
  simp only [CollapseSt.latest_ref] at hl
  simp [collapse_step, refdict, Val.get, dget, truthyO, Val.truthy, getStr,
    htv, hu, hl, hr, htv2]
  by_cases hc : compare_versions lv (replace_underscores tv) < 0 <;> simp [hc]

theorem collapse_step_init (r u tv : String)
    (hr : r ≠ "") (hu : make_unversioned_ref r = u)
    (htv : get_ref_version r = some tv) (htv2 : tv ≠ "") :
    collapse_step (refdict r) collapseInit = .ok (.cont
      { match_ref := u, unversioned_ref := u, latest_ref := some r,
        latest_version := replace_underscores tv,
        cleaned_version := some (replace_underscores tv),
        refs_by_version := [(replace_underscores tv, r)] }) := by
  simp [collapse_step, collapseInit, refdict, Val.get, dget, truthyO,
    Val.truthy, getStr, htv, hu, hr, htv2, truthyS, sset]

theorem collapse_loop_inv (u : String) (cv : String → String) (rmax : String) :
    ∀ (rest : List String) (st : CollapseSt),
    (∀ r ∈ rest, r ≠ "" ∧ make_unversioned_ref r = u ∧
      ∃ tv, get_ref_version r = some tv ∧ tv ≠ "" ∧
        replace_underscores tv = cv r) →
    (∀ r ∈ rest, r ≠ rmax → compare_versions (cv r) (cv rmax) < 0) →
    rest.count rmax ≤ 1 →
    st.match_ref = u → st.unversioned_ref = u → truthyS st.latest_ref = true →
    ((st.latest_version = cv rmax ∧
        strLookup st.refs_by_version (cv rmax) = some rmax ∧ rmax ∉ rest) ∨
     (rmax ∈ rest ∧ compare_versions st.latest_version (cv rmax) < 0)) →
    ∃ cst, anyof_collapse_loop (rest.map refdict) st = .ok cst ∧
      cst.match_ref = cst.unversioned_ref ∧
      cst.latest_version = cv rmax ∧
      strLookup cst.refs_by_version (cv rmax) = some rmax := by
  intro rest
  induction rest with
  | nil =>
      intro st hall hdom hone hm hun hl hinv
      rcases hinv with ⟨h1, h2, _⟩ | ⟨h1, _⟩
      · exact ⟨st, rfl, by rw [hm, hun], h1, h2⟩
      · simp at h1
  | cons r rest ih =>
      intro st hall hdom hone hm hun hl hinv
      obtain ⟨hr, hu2, tv, htv, htv2, hcv⟩ := hall r (List.mem_cons_self _ _)
      have hstep := collapse_step_ref r u tv st hr hu2 htv htv2 hm hl
      rw [hcv] at hstep
      simp only [List.map_cons, anyof_collapse_loop, hstep]
      have hcount : rest.count rmax ≤ 1 :=
        le_trans (List.count_le_count_cons rmax r rest) hone
      rcases hinv with ⟨hA1, hA2, hA3⟩ | ⟨hB1, hB2⟩
      · -- rmax is already the recorded latest; r is a strictly older version
        have hrne : r ≠ rmax := fun hh => hA3 (hh ▸ List.mem_cons_self _ _)
        have hlt : compare_versions (cv r) (cv rmax) < 0 :=
          hdom r (List.mem_cons_self _ _) hrne
        have hcvne : cv r ≠ cv rmax := by
          intro hh
          rw [hh, compare_versions_self] at hlt
          omega
        have hnotlt : ¬ compare_versions st.latest_version (cv r) < 0 := by
          rw [hA1, compare_versions_antisymm]
          omega
        rw [if_neg hnotlt]
        refine ih _ (fun x hx => hall x (List.mem_cons_of_mem _ hx))
          (fun x hx => hdom x (List.mem_cons_of_mem _ hx)) hcount rfl rfl hl ?_
        refine Or.inl ⟨hA1, ?_, fun hh => hA3 (List.mem_cons_of_mem _ hh)⟩
        rw [strLookup_sset_ne _ _ _ _ hcvne]
        exact hA2
      · by_cases hreq : r = rmax
        · subst hreq
          rw [if_pos hB2]
          have hnotmem : r ∉ rest := by
            rw [List.count_cons_self] at hone
            exact List.count_eq_zero.1 (by omega)
          refine ih _ (fun x hx => hall x (List.mem_cons_of_mem _ hx))
            (fun x hx => hdom x (List.mem_cons_of_mem _ hx)) hcount rfl rfl hl ?_
          exact Or.inl ⟨rfl, strLookup_sset_same _ _ _, hnotmem⟩
        · have hmem : rmax ∈ rest := by
            rcases List.mem_cons.1 hB1 with hh | hh
            · exact absurd hh.symm hreq
            · exact hh
          have hlt : compare_versions (cv r) (cv rmax) < 0 :=
            hdom r (List.mem_cons_self _ _) hreq
          refine ih _ (fun x hx => hall x (List.mem_cons_of_mem _ hx))
            (fun x hx => hdom x (List.mem_cons_of_mem _ hx)) hcount rfl rfl hl ?_
          refine Or.inr ⟨hmem, ?_⟩
          by_cases hc : compare_versions st.latest_version (cv r) < 0
          · rw [if_pos hc]
            exact hlt
          · rw [if_neg hc]
            exact hB2

theorem collapse_loop_full (u : String) (cv : String → String) (rmax : String)
    (rs : List String)
    (hall : ∀ r ∈ rs, r ≠ "" ∧ make_unversioned_ref r = u ∧
      ∃ tv, get_ref_version r = some tv ∧ tv ≠ "" ∧
        replace_underscores tv = cv r)
    (hdom : ∀ r ∈ rs, r ≠ rmax → compare_versions (cv r) (cv rmax) < 0)
    (hone : rs.count rmax ≤ 1) (hmem : rmax ∈ rs) :
    ∃ cst, anyof_collapse_loop (rs.map refdict) collapseInit = .ok cst ∧
      cst.match_ref = cst.unversioned_ref ∧
      cst.latest_version = cv rmax ∧
      strLookup cst.refs_by_version (cv rmax) = some rmax := by
  cases rs with
  | nil => simp at hmem
  | cons r0 rest =>
      obtain ⟨hr, hu2, tv, htv, htv2, hcv⟩ := hall r0 (List.mem_cons_self _ _)
      have hstep := collapse_step_init r0 u tv hr hu2 htv htv2
      rw [hcv] at hstep
      simp only [List.map_cons, anyof_collapse_loop, hstep]
      have hcount : rest.count rmax ≤ 1 :=
        le_trans (List.count_le_count_cons rmax r0 rest) hone
      refine collapse_loop_inv u cv rmax rest _
        (fun x hx => hall x (List.mem_cons_of_mem _ hx))
        (fun x hx => hdom x (List.mem_cons_of_mem _ hx)) hcount rfl rfl
        (by simp [truthyS, hr]) ?_
      by_cases h0 : r0 = rmax
      · subst h0
        have hnotmem : r0 ∉ rest := by
          rw [List.count_cons_self] at hone
          exact List.count_eq_zero.1 (by omega)
        exact Or.inl ⟨rfl, by simp [strLookup], hnotmem⟩
      · have hmem2 : rmax ∈ rest := by
          rcases List.mem_cons.1 hmem with hh | hh
          · exact absurd hh.symm h0
          · exact hh
        exact Or.inr ⟨hmem2, hdom r0 (List.mem_cons_self _ _) h0⟩

theorem filter_refdict_ref (rs : List String) :
    (rs.map refdict).filter (fun x => x.containsKey "$ref") = rs.map refdict := by
  induction rs with
  | nil => rfl
  | cons r rest ih =>
      simp only [List.map_cons, List.filter_cons]
      rw [show (refdict r).containsKey "$ref" = true from rfl]
      rw [if_pos rfl, ih]

theorem filter_refdict_null (rs : List String) :
    (rs.map refdict).filter (fun x => isNullType (x.get "type")) = [] := by
  induction rs with
  | nil => rfl
  | cons r rest ih =>
      simp only [List.map_cons, List.filter_cons]
      rw [show isNullType ((refdict r).get "type") = false from rfl]
      simp only [Bool.false_eq_true, if_false, ih]

theorem filter_refdict_sans (rs : List String) :
    (rs.map refdict).filter (fun x => !(isNullType (x.get "type"))) =
      rs.map refdict := by
  induction rs with
  | nil => rfl
  | cons r rest ih =>
      simp only [List.map_cons, List.filter_cons]
      rw [show (!(isNullType ((refdict r).get "type"))) = true from rfl]
      rw [if_pos rfl, ih]

theorem idref_scan_refdicts (rs : List String)
    (h : ∀ r ∈ rs, strEndsWith r "#/definitions/idRef" = false) :
    anyof_idref_scan (rs.map refdict) = .ok none := by
  induction rs with
  | nil => rfl
  | cons r rest ih =>
      simp only [List.map_cons, anyof_idref_scan]
      rw [show (refdict r).containsKey "$ref" = true from rfl]
      rw [show getStr ((refdict r).get "$ref") = some r from rfl]
      simp only [if_true, h r (List.mem_cons_self _ _), Bool.false_eq_true,
        if_false]
      exact ih (fun x hx => h x (List.mem_cons_of_mem _ hx))

theorem extend_context_meta_norm (env : Env) (cfg : Config) (fuel : Nat)
    (st : St) (sr : String) (v cm : Val) :
    extend_property_info env cfg fuel st sr v
        (if cm.truthy = true then cm else Val.dict []) =
      extend_property_info env cfg fuel st sr v cm := by
  cases fuel with
  | zero => rfl
  | succ n =>
      by_cases hcm : cm.truthy = true
      · rw [if_pos hcm]
      · have hcm2 : cm.truthy = false := Bool.eq_false_iff.2 hcm
        rw [if_neg hcm]
        simp only [extend_property_info, hcm2,
          show (Val.dict []).truthy = false from rfl, Bool.false_eq_true,
          if_false]

/-- C3: for a tagged union whose alternatives are all references to
versions of the same unversioned target (nonempty, non-idRef references
with nonempty versions, one strictly newest under `compare_versions`), with
no null-typed alternative, `extend_property_info` collapses the union to
the newest reference (lines 806-841) and returns exactly the result of
resolving that reference alone, keeping the original union as the final
shape.  The claim as stated, with a removed null alternative, is false:
the nullable marking of lines 853-859 modifies the first resolved entry,
see the counterexample. -/
theorem C3_anyof_version_collapse (env : Env) (cfg : Config) (fuel : Nat)
    (st : St) (schema_ref : String) (cm : Val)
    (rs : List String) (u : String) (cv : String → String) (rmax : String)
    (hall : ∀ r ∈ rs, r ≠ "" ∧ make_unversioned_ref r = u ∧
      ∃ tv, get_ref_version r = some tv ∧ tv ≠ "" ∧
        replace_underscores tv = cv r)
    (hidref : ∀ r ∈ rs, strEndsWith r "#/definitions/idRef" = false)
    (hdom : ∀ r ∈ rs, r ≠ rmax → compare_versions (cv r) (cv rmax) < 0)
    (hone : rs.count rmax ≤ 1) (hmem : rmax ∈ rs) (hlen : 2 ≤ rs.length) :
    extend_property_info env cfg (fuel + 1) st schema_ref
        (.dict [("anyOf", .list (rs.map refdict))]) cm =
      Except.map (fun res => (res.1, res.2.1,
          Val.dict [("anyOf", Val.list (rs.map refdict))], false))
        (extend_property_info env cfg fuel st schema_ref (refdict rmax) cm) := by
  obtain ⟨cst, hloop, hmeq, hlv, hlook⟩ :=
    collapse_loop_full u cv rmax rs hall hdom hone hmem
  match rs, hlen with
  | r0 :: r1 :: rs2, _ =>
  have e1 : (Val.dict [("anyOf", Val.list (List.map refdict (r0 :: r1 :: rs2)))]).get "anyOf" =
      some (Val.list (List.map refdict (r0 :: r1 :: rs2))) := rfl
  have e2 : (Val.dict [("anyOf", Val.list (List.map refdict (r0 :: r1 :: rs2)))]).get "$ref" =
      none := rfl
  have e3 : truthyO (some (Val.list (List.map refdict (r0 :: r1 :: rs2)))) = true := rfl
  have e4 : truthyO (none : Option Val) = false := rfl
  simp only [extend_property_info, e1, e2, e3, e4, if_true, if_false,
    Bool.false_eq_true, idref_scan_refdicts _ hidref, filter_refdict_ref,
    filter_refdict_null, filter_refdict_sans, List.length_nil]
  rw [if_pos (show (List.map refdict (r0 :: r1 :: rs2)).length > 1 from by simp)]
  simp only [hloop, hmeq, hlv, hlook, eq_self_iff_true, if_true, Option.getD_some,
    List.foldl_cons, List.foldl_nil]
  have e5 : isNullType ((Val.dict [("$ref", Val.str rmax)]).get "type") = false := rfl
  have e6 : (Val.dict [("$ref", Val.str rmax)]).containsKey "$ref" = true := rfl
  have e7 : copy_parent_props_all
      (Val.dict [("anyOf", Val.list (List.map refdict (r0 :: r1 :: rs2)))])
      [("$ref", Val.str rmax)] = [("$ref", Val.str rmax)] := rfl
  simp only [e5, e6, e7, Bool.and_false, Bool.false_eq_true, if_false, if_true]
  rw [extend_context_meta_norm]
  rw [show (Val.dict [("$ref", Val.str rmax)]) = refdict rmax from rfl]
  cases hrec : extend_property_info env cfg fuel st schema_ref (refdict rmax) cm with
  | error e => simp [Except.map]
  | ok res =>
      obtain ⟨st2, infos, fin, al⟩ := res
      simp [Except.map]

/-- Witness for C3 at a concrete input: a union of references to versions
1.0.0 and 2.0.0 of the target Y collapses to the 2.0.0 reference. -/
theorem C3_witness :
    extend_property_info envR cfg0 3 st0 "S"
        (.dict [("anyOf", .list ([refY1, refY2].map refdict))]) (.dict []) =
      Except.map (fun res => (res.1, res.2.1,
          Val.dict [("anyOf", Val.list ([refY1, refY2].map refdict))], false))
        (extend_property_info envR cfg0 2 st0 "S" (refdict refY2) (.dict [])) :=
  C3_anyof_version_collapse envR cfg0 2 st0 "S" (.dict []) [refY1, refY2]
    "http://e/Y.json#/definitions/Y"
    (fun r => if r = refY1 then "1.0.0" else "2.0.0") refY2
    (by
      intro r hr
      rcases (by simpa using hr : r = refY1 ∨ r = refY2) with h | h
      · subst h
        exact ⟨by decide, rfl, "1_0_0", rfl, by decide, rfl⟩
      · subst h
        exact ⟨by decide, rfl, "2_0_0", rfl, by decide, rfl⟩)
    (by
      intro r hr
      rcases (by simpa using hr : r = refY1 ∨ r = refY2) with h | h
      · subst h
        decide
      · subst h
        decide)
    (by
      intro r hr hne
      rcases (by simpa using hr : r = refY1 ∨ r = refY2) with h | h
      · subst h
        decide
      · exact absurd h hne)
    (by decide) (by simp) (by decide)

/-- Counterexample to the claim as stated: a union of two versioned
references plus a null marker resolves to an entry carrying the nullable
marking and the widened type list, which differs from the result of
resolving the newest reference alone. -/
theorem C3_counterexample :
    extend_property_info envR cfg0 3 st0 "S" c3_union (.dict []) =
      .ok (st0,
        [Val.dict [("type", Val.list [Val.str "string", Val.str "null"]),
                   ("description", Val.str "Y!"),
                   ("fulldescription_override", Val.bool false),
                   ("_doc_generator_meta", Val.dict []),
                   ("nullable", Val.bool true)]],
        c3_union, false)
    ∧ extend_property_info envR cfg0 3 st0 "S" c3_ref (.dict []) =
      .ok (st0,
        [Val.dict [("type", Val.str "string"),
                   ("description", Val.str "Y!"),
                   ("fulldescription_override", Val.bool false),
                   ("_doc_generator_meta", Val.dict [])]],
        c3_ref, false)
    ∧ [Val.dict [("type", Val.list [Val.str "string", Val.str "null"]),
                 ("description", Val.str "Y!"),
                 ("fulldescription_override", Val.bool false),
                 ("_doc_generator_meta", Val.dict []),
                 ("nullable", Val.bool true)]] ≠
      [Val.dict [("type", Val.str "string"),
                 ("description", Val.str "Y!"),
                 ("fulldescription_override", Val.bool false),
                 ("_doc_generator_meta", Val.dict [])]] := by
  refine ⟨rfl, rfl, ?_⟩
  simp
